import Mathlib

/-!
# Verification of the mission-data-recorder coordination layer

This file is a shallow embedding, in Lean 4, of the parts of the
`mission-data-recorder` Go program that the specification's claims are about:

* the bag-segment metadata and the upload queue's priority order
  (`uploadmanager.go`: `bagQueue.Less`, `container/heap` push/pop, `AddBag`,
  `nextBag`),
* the segment-completion watcher (`recorder.go`: `newBagMetadata`,
  `notifyIfBagReady`, and the `^(.*)_(\d+)\.db3$` filename convention),
* the updatable-configuration YAML parsing (`config.go`:
  `topicList.Set/Parse/UnmarshalYAML`, `parseUpdatableConfigYAML`),
* the bag uploader's compression/upload pipeline (`uploader.go`: both source
  variants of `UploadBag`, `getRecordStartTime`), and the upload worker's
  cleanup decision (`uploadmanager.go`: `StartWorker`),
* the pending-configuration channel (`config.go`: `newConfigWatcher`,
  `onUpdate`) and the worker-count semaphore (`uploadmanager.go`:
  `SetWorkerCount`, `StartWorker`), each embedded as a transition system.

Go machine integers (`int` on the 64-bit targets this program is built for,
`int64`) are embedded as `Int` with explicit two's-complement wrapping where
overflow matters.  External collaborators (the gzip/xz libraries, the HTTP
client, the sqlite driver, the YAML scanner, wall-clock time formatting) are
parameters of the embedding: the repository's code is embedded exactly, the
collaborators' outcomes are inputs.
-/

/-! ## 64-bit integer arithmetic

Go's `int` on the 64-bit targets is a two's-complement 64-bit integer and
addition wraps around.  `wrap64` is the canonical representative in
`[-2^63, 2^63)`. -/

def int64Max : Int := 2 ^ 63 - 1

def wrap64 (x : Int) : Int := (x + 2 ^ 63) % 2 ^ 64 - 2 ^ 63

theorem wrap64_eq_of_inbounds (x : Int) (h1 : -2 ^ 63 ≤ x) (h2 : x < 2 ^ 63) :
    wrap64 x = x := by
  unfold wrap64
  omega

/-! ## Bag metadata and the queue order

From `recorder.go`:

```go
type bagMetadata struct {
    path   string
    number int
    isNew  bool
    index  int
}
```

The `index` field is maintained by `bagQueue.Swap/Push/Pop` purely as
bookkeeping for `container/heap.Fix`/`Remove`, which this program never
calls; no comparison or output depends on it, so the embedding represents a
`*bagMetadata` by its three meaningful fields. -/

structure bagMetadata where
  path : String
  number : Int
  isNew : Bool
deriving Repr, DecidableEq, Inhabited

/-- From `uploadmanager.go`:

```go
func (a bagQueue) Less(i, j int) bool {
    if a[i].isNew && a[j].isNew {
        return a[i].number > a[j].number
    } else if !a[i].isNew && !a[j].isNew {
        return a[i].number < a[j].number
    } else {
        return a[i].isNew
    }
}
```
-/
def bagLess (x y : bagMetadata) : Bool :=
  if x.isNew && y.isNew then
    x.number > y.number
  else if !x.isNew && !y.isNew then
    x.number < y.number
  else
    x.isNew

/-- `bagLess` is asymmetric. -/
theorem bagLess_asymm (a b : bagMetadata) (h : bagLess a b = true) :
    bagLess b a = false := by
  unfold bagLess at *
  cases ha : a.isNew <;> cases hb : b.isNew <;> simp_all <;> omega

/-- The complement of `bagLess` is transitive (`bagLess` is a strict total
order on the `(isNew, number)` key). -/
theorem bagLess_negtrans (a b c : bagMetadata)
    (h1 : bagLess c b = false) (h2 : bagLess b a = false) :
    bagLess c a = false := by
  unfold bagLess at *
  cases ha : a.isNew <;> cases hb : b.isNew <;> cases hc : c.isNew <;>
    simp_all <;> omega

/-- From `bagLess a b` and `¬ bagLess c b` conclude `¬ bagLess c a`. -/
theorem bagLess_lt_of_le (a b c : bagMetadata)
    (h1 : bagLess a b = true) (h2 : bagLess c b = false) :
    bagLess c a = false := by
  unfold bagLess at *
  cases ha : a.isNew <;> cases hb : b.isNew <;> cases hc : c.isNew <;>
    simp_all <;> omega

/-- Two bags are `bagLess`-equivalent exactly when they agree on the
`(isNew, number)` key. -/
theorem bagLess_tight (a b : bagMetadata)
    (h1 : bagLess a b = false) (h2 : bagLess b a = false) :
    a.isNew = b.isNew ∧ a.number = b.number := by
  unfold bagLess at *
  cases ha : a.isNew <;> cases hb : b.isNew <;> simp_all <;> omega

/-! ## The upload queue: `container/heap` over a Go slice

`uploadmanager.go` drives `bagQueue` (a Go slice of bag pointers) through
`container/heap`.  The slice is embedded as a `List`; the generic
`container/heap` algorithms (`up`, `down`, `Push`, `Pop`, `Init`) are embedded
generically in the comparison function, exactly as they are generic in the Go
interface. -/

section ContainerHeap

variable {α : Type} [Inhabited α]

/-- Read `a[i]` of a Go slice.  The embedded algorithms only index in bounds;
`default` is returned out of bounds for totality. -/
def gd (l : List α) (i : Nat) : α := l.getD i default

/-- `bagQueue.Swap`: `a[i], a[j] = a[j], a[i]` (the `index` bookkeeping
writes are dropped together with the `index` field). -/
def swapL (l : List α) (i j : Nat) : List α := (l.set i (gd l j)).set j (gd l i)

/-- The parent index of heap position `j`: `(j - 1) / 2`. -/
def par (j : Nat) : Nat := (j - 1) / 2

theorem length_swapL (l : List α) (i j : Nat) : (swapL l i j).length = l.length := by
  simp [swapL]

theorem gd_swapL (l : List α) (i j m : Nat) (hi : i < l.length) (hj : j < l.length) :
    gd (swapL l i j) m = if m = j then gd l i else if m = i then gd l j else gd l m := by
  unfold swapL gd
  simp only [List.getD_eq_getElem?_getD, List.getElem?_set, List.length_set]
  rcases eq_or_ne m j with h1 | h1
  · subst h1
    simp [hj]
  · rw [if_neg h1]
    rcases eq_or_ne m i with h2 | h2
    · subst h2
      simp [hi, Ne.symm h1]
    · rw [if_neg h2]
      simp [Ne.symm h1, Ne.symm h2]

theorem swapL_perm [DecidableEq α] (l : List α) (i j : Nat) (hi : i < l.length) (hj : j < l.length) :
    List.Perm (swapL l i j) l := by
  rw [List.perm_iff_count]
  intro a
  unfold swapL
  have hj2 : j < (l.set i (gd l j)).length := by simpa using hj
  rw [List.count_set _ _ _ _ hj2, List.count_set _ _ _ _ hi]
  have hgi : gd l i = l[i] := List.getD_eq_getElem l default hi
  have hgj : gd l j = l[j] := List.getD_eq_getElem l default hj
  have h1 : (if (l[i] == a) = true then 1 else 0) ≤ List.count a l := by
    rcases eq_or_ne (l[i]) a with e | e
    · rw [if_pos (by simp [e])]
      exact List.count_pos_iff.mpr (e ▸ List.getElem_mem hi)
    · rw [if_neg (by simp [e])]
      exact Nat.zero_le _
  have h2 : (if (l[j] == a) = true then 1 else 0) ≤ List.count a l := by
    rcases eq_or_ne (l[j]) a with e | e
    · rw [if_pos (by simp [e])]
      exact List.count_pos_iff.mpr (e ▸ List.getElem_mem hj)
    · rw [if_neg (by simp [e])]
      exact Nat.zero_le _
  rcases eq_or_ne i j with h | h
  · subst h
    have hi3 : i < (l.set i (gd l i)).length := by simpa using hi
    rw [List.getElem_set_self hi3]
    rcases eq_or_ne (l[i]) a with e1 | e1 <;> simp_all <;> omega
  · have hlt2 : j < (l.set i (gd l j)).length := by simpa using hj
    rw [List.getElem_set_ne (by omega) hlt2]
    rcases eq_or_ne (l[i]) a with e1 | e1 <;> rcases eq_or_ne (l[j]) a with e2 | e2 <;>
      simp_all <;> omega

/-- `container/heap.up`:

```go
func up(h Interface, j int) {
    for {
        i := (j - 1) / 2 // parent
        if i == j || !h.Less(j, i) {
            break
        }
        h.Swap(i, j)
        j = i
    }
}
```

(`i == j` happens exactly at `j == 0`.) -/
def heapUp (less : α → α → Bool) (l : List α) (j : Nat) : List α :=
  if h0 : j = 0 then l
  else if less (gd l j) (gd l (par j)) then heapUp less (swapL l (par j) j) (par j)
  else l
termination_by j
decreasing_by simp_wf; unfold par; omega

/-- `container/heap.down` (its boolean result `i > i0` is consumed only by
`heap.Fix`, which this program never calls, and is dropped; the Go
`j2 < n && h.Less(j2, j1)` shortcut condition is written as one decidable
conjunction):

```go
func down(h Interface, i0, n int) bool {
    i := i0
    for {
        j1 := 2*i + 1
        if j1 >= n || j1 < 0 {
            break
        }
        j := j1
        if j2 := j1 + 1; j2 < n && h.Less(j2, j1) {
            j = j2
        }
        if !h.Less(j, i) {
            break
        }
        h.Swap(i, j)
        i = j
    }
    return i > i0
}
```
-/
def heapDown (less : α → α → Bool) (l : List α) (i n : Nat) : List α :=
  if _h1 : 2 * i + 1 < n then
    if _h2 : 2 * i + 2 < n ∧ less (gd l (2 * i + 2)) (gd l (2 * i + 1)) = true then
      if less (gd l (2 * i + 2)) (gd l i) then
        heapDown less (swapL l i (2 * i + 2)) (2 * i + 2) n
      else l
    else
      if less (gd l (2 * i + 1)) (gd l i) then
        heapDown less (swapL l i (2 * i + 1)) (2 * i + 1) n
      else l
  else l
termination_by n - i
decreasing_by all_goals (simp_wf; omega)

/-- `container/heap.Push` composed with `bagQueue.Push` (append the element,
sift it up from the last position). -/
def heapPush (less : α → α → Bool) (l : List α) (x : α) : List α :=
  heapUp less (l ++ [x]) l.length

/-- `container/heap.Pop` composed with `bagQueue.Pop`: swap the root with the
last element, sift the new root down over the first `n-1` positions, then
remove and return the last element.  Callers (`nextBag`) only invoke it on a
non-empty queue. -/
def heapPop (less : α → α → Bool) (l : List α) : α × List α :=
  (gd (heapDown less (swapL l 0 (l.length - 1)) 0 (l.length - 1)) (l.length - 1),
    (heapDown less (swapL l 0 (l.length - 1)) 0 (l.length - 1)).take (l.length - 1))

/-- The loop of `container/heap.Init`, counting `i` down from `n/2 - 1`
to `0`. -/
def heapInitAux (less : α → α → Bool) (n : Nat) : Nat → List α → List α
  | 0, l => l
  | i + 1, l => heapInitAux less n i (heapDown less l i n)

/-- `container/heap.Init`:

```go
func Init(h Interface) {
    n := h.Len()
    for i := n/2 - 1; i >= 0; i-- {
        down(h, i, n)
    }
}
```
-/
def heapInitGo (less : α → α → Bool) (l : List α) : List α :=
  heapInitAux less l.length (l.length / 2) l

theorem heapDown_length (less : α → α → Bool) (l : List α) (i n : Nat) :
    (heapDown less l i n).length = l.length := by
  induction l, i, n using heapDown.induct less with
  | case1 l i n h1 h2 hl ih =>
    rw [heapDown, dif_pos h1, dif_pos h2, if_pos hl]
    rw [ih, length_swapL]
  | case2 l i n h1 h2 hl =>
    rw [heapDown, dif_pos h1, dif_pos h2, if_neg (by simp [hl])]
  | case3 l i n h1 h2 hl ih =>
    rw [heapDown, dif_pos h1, dif_neg h2,
      if_pos hl]
    rw [ih, length_swapL]
  | case4 l i n h1 h2 hl =>
    rw [heapDown, dif_pos h1, dif_neg h2,
      if_neg (by simp [hl])]
  | case5 l i n h1 =>
    rw [heapDown, dif_neg h1]

theorem heapUp_length (less : α → α → Bool) (l : List α) (j : Nat) :
    (heapUp less l j).length = l.length := by
  induction l, j using heapUp.induct less with
  | case1 l => rw [heapUp]; simp
  | case2 l j h0 hl ih =>
    rw [heapUp, dif_neg h0, if_pos hl]
    rw [ih, length_swapL]
  | case3 l j h0 hl =>
    rw [heapUp, dif_neg h0, if_neg (by simp [hl])]

theorem gd_swapL_fst (l : List α) (i j : Nat) (hi : i < l.length) (hj : j < l.length)
    (hne : i ≠ j) : gd (swapL l i j) i = gd l j := by
  rw [gd_swapL l i j i hi hj, if_neg hne, if_pos rfl]

theorem gd_swapL_snd (l : List α) (i j : Nat) (hi : i < l.length) (hj : j < l.length) :
    gd (swapL l i j) j = gd l i := by
  rw [gd_swapL l i j j hi hj, if_pos rfl]

theorem gd_swapL_other (l : List α) (i j m : Nat) (hmi : m ≠ i) (hmj : m ≠ j) :
    gd (swapL l i j) m = gd l m := by
  unfold swapL gd
  simp only [List.getD_eq_getElem?_getD]
  rw [List.getElem?_set_ne (Ne.symm hmj), List.getElem?_set_ne (Ne.symm hmi)]

theorem par_child_left (i : Nat) : par (2 * i + 1) = i := by unfold par; omega

theorem par_child_right (i : Nat) : par (2 * i + 2) = i := by unfold par; omega

theorem par_eq_iff (m i : Nat) (hm : 0 < m) : par m = i ↔ m = 2 * i + 1 ∨ m = 2 * i + 2 := by
  unfold par; omega

theorem par_lt (j : Nat) (hj : 0 < j) : par j < j := by unfold par; omega

/-- The binary-heap order on the first `n` positions: no position is `less`
than its parent. -/
def heapOrd (less : α → α → Bool) (l : List α) (n : Nat) : Prop :=
  ∀ j, 0 < j → j < n → less (gd l j) (gd l (par j)) = false

variable {less : α → α → Bool}

theorem heapDown_gd_high (l : List α) (i n m : Nat) (hm : n ≤ m) :
    gd (heapDown less l i n) m = gd l m := by
  induction l, i, n using heapDown.induct less with
  | case1 l i n h1 h2 hl ih =>
    rw [heapDown, dif_pos h1, dif_pos h2, if_pos hl]
    rw [ih, gd_swapL_other] <;> omega
  | case2 l i n h1 h2 hl =>
    rw [heapDown, dif_pos h1, dif_pos h2, if_neg (by simp [hl])]
  | case3 l i n h1 h2 hl ih =>
    rw [heapDown, dif_pos h1, dif_neg h2, if_pos hl]
    rw [ih, gd_swapL_other] <;> omega
  | case4 l i n h1 h2 hl =>
    rw [heapDown, dif_pos h1, dif_neg h2, if_neg (by simp [hl])]
  | case5 l i n h1 =>
    rw [heapDown, dif_neg h1]

theorem heapDown_perm [DecidableEq α] (l : List α) (i n : Nat) (hn : n ≤ l.length) :
    List.Perm (heapDown less l i n) l := by
  induction l, i, n using heapDown.induct less with
  | case1 l i n h1 h2 hl ih =>
    rw [heapDown, dif_pos h1, dif_pos h2, if_pos hl]
    exact (ih (by simpa [length_swapL] using hn)).trans
      (swapL_perm l i (2 * i + 2) (by omega) (by omega))
  | case2 l i n h1 h2 hl =>
    rw [heapDown, dif_pos h1, dif_pos h2, if_neg (by simp [hl])]
  | case3 l i n h1 h2 hl ih =>
    rw [heapDown, dif_pos h1, dif_neg h2, if_pos hl]
    exact (ih (by simpa [length_swapL] using hn)).trans
      (swapL_perm l i (2 * i + 1) (by omega) (by omega))
  | case4 l i n h1 h2 hl =>
    rw [heapDown, dif_pos h1, dif_neg h2, if_neg (by simp [hl])]
  | case5 l i n h1 =>
    rw [heapDown, dif_neg h1]

/-- Sift-down correctness: if every parent/child pair in the first `n`
positions is ordered except possibly the pairs whose parent is `i`, and the
elements at `i`'s children are additionally not `less` than `i`'s parent,
then `down` re-establishes the heap order on the first `n` positions. -/
theorem heapDown_restores
    (hasymm : ∀ a b : α, less a b = true → less b a = false)
    (hneg : ∀ a b c : α, less c b = false → less b a = false → less c a = false)
    (l : List α) (i n : Nat) (hn : n ≤ l.length)
    (hA : ∀ m, 0 < m → m < n → par m ≠ i → less (gd l m) (gd l (par m)) = false)
    (hB : 0 < i → ∀ c, c < n → par c = i → less (gd l c) (gd l (par i)) = false) :
    heapOrd less (heapDown less l i n) n := by
  induction l, i, n using heapDown.induct less with
  | case1 l i n h1 h2 hl ih =>
    rw [heapDown, dif_pos h1, dif_pos h2, if_pos hl]
    have hi : i < l.length := by omega
    have hj : 2 * i + 2 < l.length := by omega
    have hij : i ≠ 2 * i + 2 := by omega
    apply ih (by simpa [length_swapL] using hn)
    · -- hA for the swapped list at the new index 2*i+2
      intro m hm0 hmn hpm
      rcases eq_or_ne m (2 * i + 2) with rfl | hm2
      · rw [gd_swapL_snd l i _ hi hj, par_child_right,
          gd_swapL_fst l i _ hi hj hij]
        exact hasymm _ _ hl
      · rcases eq_or_ne m (2 * i + 1) with rfl | hm1
        · rw [gd_swapL_other l i _ _ (by omega) (by omega), par_child_left,
            gd_swapL_fst l i _ hi hj hij]
          exact hasymm _ _ h2.2
        · rcases eq_or_ne m i with hmi0 | hmi
          · rw [hmi0]
            have h0i : 0 < i := hmi0 ▸ hm0
            rw [gd_swapL_fst l i _ hi hj hij,
              gd_swapL_other l i _ _ (by have := par_lt i h0i; omega)
                (by have := par_lt i h0i; omega)]
            exact hB h0i (2 * i + 2) (by omega) (par_child_right i)
          · have hpi : par m ≠ i := by
              intro hc
              rcases (par_eq_iff m i hm0).mp hc with rfl | rfl
              · exact hm1 rfl
              · exact hm2 rfl
            rw [gd_swapL_other l i _ m hmi hm2,
              gd_swapL_other l i _ _ hpi hpm]
            exact hA m hm0 hmn hpi
    · -- hB for the swapped list at the new index 2*i+2
      intro _ c hc hpc
      rw [par_child_right] at *
      have hc0 : 0 < c := by unfold par at hpc; omega
      have hcbig : c = 2 * (2 * i + 2) + 1 ∨ c = 2 * (2 * i + 2) + 2 :=
        (par_eq_iff c (2 * i + 2) hc0).mp hpc
      rw [gd_swapL_other l i _ c (by omega) (by omega),
        gd_swapL_fst l i _ hi hj hij]
      have := hA c hc0 hc (by rw [hpc]; omega)
      rwa [hpc] at this
  | case2 l i n h1 h2 hl =>
    rw [heapDown, dif_pos h1, dif_pos h2, if_neg (by simp [hl])]
    intro m hm0 hmn
    rcases eq_or_ne (par m) i with hpm | hpm
    · rcases (par_eq_iff m i hm0).mp hpm with rfl | rfl
      · rw [par_child_left]
        exact hneg _ _ _ (hasymm _ _ h2.2) (by simpa using hl)
      · rw [par_child_right]
        simpa using hl
    · exact hA m hm0 hmn hpm
  | case3 l i n h1 h2 hl ih =>
    rw [heapDown, dif_pos h1, dif_neg h2, if_pos hl]
    have hi : i < l.length := by omega
    have hj : 2 * i + 1 < l.length := by omega
    have hij : i ≠ 2 * i + 1 := by omega
    have h2' : 2 * i + 2 < n → less (gd l (2 * i + 2)) (gd l (2 * i + 1)) = false := by
      intro hlt
      rcases hx : less (gd l (2 * i + 2)) (gd l (2 * i + 1)) with _ | _
      · rfl
      · exact absurd ⟨hlt, hx⟩ h2
    apply ih (by simpa [length_swapL] using hn)
    · intro m hm0 hmn hpm
      rcases eq_or_ne m (2 * i + 1) with rfl | hm1
      · rw [gd_swapL_snd l i _ hi hj, par_child_left,
          gd_swapL_fst l i _ hi hj hij]
        exact hasymm _ _ hl
      · rcases eq_or_ne m (2 * i + 2) with rfl | hm2
        · rw [gd_swapL_other l i _ _ (by omega) (by omega), par_child_right,
            gd_swapL_fst l i _ hi hj hij]
          exact h2' hmn
        · rcases eq_or_ne m i with hmi0 | hmi
          · rw [hmi0]
            have h0i : 0 < i := hmi0 ▸ hm0
            rw [gd_swapL_fst l i _ hi hj hij,
              gd_swapL_other l i _ _ (by have := par_lt i h0i; omega)
                (by have := par_lt i h0i; omega)]
            exact hB h0i (2 * i + 1) (by omega) (par_child_left i)
          · have hpi : par m ≠ i := by
              intro hc
              rcases (par_eq_iff m i hm0).mp hc with rfl | rfl
              · exact hm1 rfl
              · exact hm2 rfl
            rw [gd_swapL_other l i _ m hmi hm1,
              gd_swapL_other l i _ _ hpi hpm]
            exact hA m hm0 hmn hpi
    · intro _ c hc hpc
      rw [par_child_left] at *
      have hc0 : 0 < c := by unfold par at hpc; omega
      have hcbig : c = 2 * (2 * i + 1) + 1 ∨ c = 2 * (2 * i + 1) + 2 :=
        (par_eq_iff c (2 * i + 1) hc0).mp hpc
      rw [gd_swapL_other l i _ c (by omega) (by omega),
        gd_swapL_fst l i _ hi hj hij]
      have := hA c hc0 hc (by rw [hpc]; omega)
      rwa [hpc] at this
  | case4 l i n h1 h2 hl =>
    rw [heapDown, dif_pos h1, dif_neg h2, if_neg (by simp [hl])]
    intro m hm0 hmn
    have h2' : 2 * i + 2 < n → less (gd l (2 * i + 2)) (gd l (2 * i + 1)) = false := by
      intro hlt
      rcases hx : less (gd l (2 * i + 2)) (gd l (2 * i + 1)) with _ | _
      · rfl
      · exact absurd ⟨hlt, hx⟩ h2
    rcases eq_or_ne (par m) i with hpm | hpm
    · rcases (par_eq_iff m i hm0).mp hpm with rfl | rfl
      · rw [par_child_left]
        simpa using hl
      · rw [par_child_right]
        exact hneg _ _ _ (h2' hmn) (by simpa using hl)
    · exact hA m hm0 hmn hpm
  | case5 l i n h1 =>
    rw [heapDown, dif_neg h1]
    intro m hm0 hmn
    rcases eq_or_ne (par m) i with hpm | hpm
    · rcases (par_eq_iff m i hm0).mp hpm with rfl | rfl <;> omega
    · exact hA m hm0 hmn hpm

theorem heapUp_perm [DecidableEq α] (l : List α) (j : Nat) (hj : j < l.length) :
    List.Perm (heapUp less l j) l := by
  induction l, j using heapUp.induct less with
  | case1 l => rw [heapUp]; simp
  | case2 l j h0 hl ih =>
    rw [heapUp, dif_neg h0, if_pos hl]
    have hpj : par j < j := par_lt j (by omega)
    exact (ih (by rw [length_swapL]; omega)).trans
      (swapL_perm l (par j) j (by omega) hj)
  | case3 l j h0 hl =>
    rw [heapUp, dif_neg h0, if_neg (by simp [hl])]

/-- Sift-up correctness: if every parent/child pair is ordered except
possibly the pair whose child is `j`, and the elements at `j`'s children are
additionally not `less` than `j`'s parent, then `up` establishes the heap
order on the whole list. -/
theorem heapUp_establishes
    (hasymm : ∀ a b : α, less a b = true → less b a = false)
    (hneg : ∀ a b c : α, less c b = false → less b a = false → less c a = false)
    (l : List α) (j : Nat) (hj : j < l.length)
    (hU1 : ∀ m, 0 < m → m < l.length → m ≠ j → less (gd l m) (gd l (par m)) = false)
    (hU2 : 0 < j → ∀ c, 0 < c → c < l.length → par c = j →
      less (gd l c) (gd l (par j)) = false) :
    heapOrd less (heapUp less l j) l.length := by
  induction l, j using heapUp.induct less with
  | case1 l =>
    rw [heapUp, dif_pos rfl]
    intro m hm0 hmn
    exact hU1 m hm0 hmn (by omega)
  | case2 l j h0 hl ih =>
    rw [heapUp, dif_neg h0, if_pos hl]
    have hj0 : 0 < j := by omega
    have hpj : par j < j := par_lt j hj0
    have hi : par j < l.length := by omega
    have hij : par j ≠ j := by omega
    have hlen : (swapL l (par j) j).length = l.length := length_swapL l (par j) j
    have := ih (by omega)
    rw [hlen] at this
    apply this
    · -- hU1 for the swapped list at the new index par j
      intro m hm0 hmn hmi
      rcases eq_or_ne m j with rfl | hmj
      · -- the moved pair itself
        rw [gd_swapL_snd l (par m) m hi hj, gd_swapL_fst l (par m) m hi hj hij]
        exact hasymm _ _ hl
      · rcases eq_or_ne (par m) j with hpm | hpm
        · -- a child of j: its new parent value is the old parent of j
          rw [gd_swapL_other l (par j) j m (by omega) hmj, hpm,
            gd_swapL_snd l (par j) j hi hj]
          have := hU2 hj0 m hm0 hmn hpm
          exact this
        · rcases eq_or_ne (par m) (par j) with hps | hps
          · -- a sibling of j under par j: its new parent value is the old j
            rw [gd_swapL_other l (par j) j m hmi hmj, hps,
              gd_swapL_fst l (par j) j hi hj hij]
            exact hneg _ _ _ (by
                have := hU1 m hm0 hmn hmj
                rwa [hps] at this)
              (hasymm _ _ hl)
          · rw [gd_swapL_other l (par j) j m hmi hmj,
              gd_swapL_other l (par j) j (par m) hps hpm]
            exact hU1 m hm0 hmn hmj
    · -- hU2 for the swapped list at the new index par j
      intro hi0 c hc0 hcn hpc
      have hpp : par (par j) < par j := par_lt (par j) hi0
      have hc_gt : par j < c := by
        have := (par_eq_iff c (par j) hc0).mp hpc
        omega
      rw [gd_swapL_other l (par j) j (par (par j)) (by omega) (by omega)]
      rcases eq_or_ne c j with rfl | hcj
      · rw [gd_swapL_snd l (par c) c hi hj]
        exact hU1 (par c) hi0 hi hij
      · rw [gd_swapL_other l (par j) j c (by omega) hcj]
        refine hneg _ _ _ ?_ (hU1 (par j) hi0 hi hij)
        have := hU1 c hc0 hcn hcj
        rwa [hpc] at this
  | case3 l j h0 hl =>
    rw [heapUp, dif_neg h0, if_neg (by simp [hl])]
    intro m hm0 hmn
    rcases eq_or_ne m j with rfl | hmj
    · simpa using hl
    · exact hU1 m hm0 hmn hmj

theorem gd_append_lt (l : List α) (x : α) (m : Nat) (hm : m < l.length) :
    gd (l ++ [x]) m = gd l m := by
  unfold gd
  simp only [List.getD_eq_getElem?_getD, List.getElem?_append, if_pos hm]

theorem heapPush_perm [DecidableEq α] (l : List α) (x : α) :
    List.Perm (heapPush less l x) (x :: l) := by
  unfold heapPush
  exact (heapUp_perm (l ++ [x]) l.length (by simp)).trans
    (List.perm_append_singleton x l)

theorem heapPush_length (l : List α) (x : α) :
    (heapPush less l x).length = l.length + 1 := by
  unfold heapPush
  rw [heapUp_length]
  simp

theorem heapPush_heapOrd
    (hasymm : ∀ a b : α, less a b = true → less b a = false)
    (hneg : ∀ a b c : α, less c b = false → less b a = false → less c a = false)
    (l : List α) (x : α) (H : heapOrd less l l.length) :
    heapOrd less (heapPush less l x) (l.length + 1) := by
  unfold heapPush
  have hlen : (l ++ [x]).length = l.length + 1 := by simp
  have := heapUp_establishes hasymm hneg (l ++ [x]) l.length (by simp)
    (fun m hm0 hmn hmj => by
      rw [hlen] at hmn
      have hm : m < l.length := by omega
      have hp : par m < l.length := by have := par_lt m hm0; omega
      rw [gd_append_lt l x m hm, gd_append_lt l x (par m) hp]
      exact H m hm0 hm)
    (fun hj0 c hc0 hcn hpc => by
      rw [hlen] at hcn
      have := (par_eq_iff c l.length hc0).mp hpc
      omega)
  rwa [hlen] at this

theorem heapOrd_root_min
    (hasymm : ∀ a b : α, less a b = true → less b a = false)
    (hneg : ∀ a b c : α, less c b = false → less b a = false → less c a = false)
    (l : List α) (n : Nat) (H : heapOrd less l n) :
    ∀ j, j < n → less (gd l j) (gd l 0) = false := by
  intro j
  induction j using Nat.strong_induction_on with
  | _ j ih =>
    intro hj
    rcases Nat.eq_zero_or_pos j with rfl | hj0
    · rcases hx : less (gd l 0) (gd l 0) with _ | _
      · rfl
      · have := hasymm _ _ hx
        rw [hx] at this
        exact this
    · exact hneg _ _ _ (H j hj0 hj) (ih (par j) (par_lt j hj0) (by have := par_lt j hj0; omega))

theorem gd_take (l : List α) (n m : Nat) (hm : m < n) :
    gd (l.take n) m = gd l m := by
  unfold gd
  simp only [List.getD_eq_getElem?_getD, List.getElem?_take, if_pos hm]

theorem heapPop_fst (l : List α) (h0 : l ≠ []) :
    (heapPop less l).1 = gd l 0 := by
  have hlen : 0 < l.length := List.length_pos.mpr h0
  unfold heapPop
  rw [heapDown_gd_high _ _ _ _ (Nat.le_refl _)]
  rcases Nat.eq_zero_or_pos (l.length - 1) with he | hp
  · rw [he]
    rw [gd_swapL_snd l 0 0 hlen hlen]
  · rw [gd_swapL_snd l 0 (l.length - 1) hlen (by omega)]

theorem heapPop_snd_length (l : List α) :
    (heapPop less l).2.length = l.length - 1 := by
  unfold heapPop
  rw [List.length_take, heapDown_length, length_swapL]
  omega

theorem heapPop_perm [DecidableEq α] (l : List α) (h0 : l ≠ []) :
    List.Perm ((heapPop less l).1 :: (heapPop less l).2) l := by
  have hlen : 0 < l.length := List.length_pos.mpr h0
  have hl2 : List.Perm (heapDown less (swapL l 0 (l.length - 1)) 0 (l.length - 1)) l := by
    refine (heapDown_perm _ _ _ (by rw [length_swapL]; omega)).trans ?_
    exact swapL_perm l 0 (l.length - 1) hlen (by omega)
  set l2 := heapDown less (swapL l 0 (l.length - 1)) 0 (l.length - 1) with hl2def
  have hlen2 : l2.length = l.length := by
    rw [hl2def, heapDown_length, length_swapL]
  have hsplit : l2 = l2.take (l.length - 1) ++ [gd l2 (l.length - 1)] := by
    conv_lhs => rw [← List.take_append_drop (l.length - 1) l2]
    congr 1
    rw [List.drop_eq_getElem_cons (by omega), List.drop_eq_nil_of_le (by omega)]
    unfold gd
    rw [List.getD_eq_getElem l2 default (by omega)]
  unfold heapPop
  refine List.Perm.trans ?_ hl2
  conv_rhs => rw [hsplit]
  exact (List.perm_append_singleton _ _).symm

theorem heapPop_heapOrd
    (hasymm : ∀ a b : α, less a b = true → less b a = false)
    (hneg : ∀ a b c : α, less c b = false → less b a = false → less c a = false)
    (l : List α) (h0 : l ≠ []) (H : heapOrd less l l.length) :
    heapOrd less (heapPop less l).2 (heapPop less l).2.length := by
  have hlen : 0 < l.length := List.length_pos.mpr h0
  rw [heapPop_snd_length]
  unfold heapPop
  intro m hm0 hmn
  have hmlt : m < l.length - 1 := by omega
  have hres := heapDown_restores hasymm hneg (swapL l 0 (l.length - 1)) 0 (l.length - 1)
    (by rw [length_swapL]; omega)
    (fun m hm0 hmn hpm => by
      have hp : par m < m := par_lt m hm0
      rw [gd_swapL_other l 0 (l.length - 1) m (by omega) (by omega),
        gd_swapL_other l 0 (l.length - 1) (par m) hpm (by omega)]
      exact H m hm0 (by omega))
    (fun h => absurd h (by omega))
  have hpm : par m < m := par_lt m hm0
  rw [gd_take _ _ _ hmlt, gd_take _ _ _ (by omega)]
  exact hres m hm0 hmlt

/-- Drain the queue by repeated `Pop` (the analysis device used to state the
ordering law; each step is exactly `nextBag`'s pop). -/
def popAll (less : α → α → Bool) (l : List α) : List α :=
  if _h : l.length = 0 then []
  else (heapPop less l).1 :: popAll less (heapPop less l).2
termination_by l.length
decreasing_by rw [heapPop_snd_length]; omega

theorem popAll_perm [DecidableEq α] (l : List α) : List.Perm (popAll less l) l := by
  induction l using popAll.induct less with
  | case1 l h =>
    rw [popAll, dif_pos h]
    rw [List.length_eq_zero.mp h]
  | case2 l h ih =>
    rw [popAll, dif_neg h]
    exact (List.Perm.cons _ ih).trans
      (heapPop_perm l (by intro hc; rw [hc] at h; exact h rfl))

theorem popAll_sorted [DecidableEq α]
    (hasymm : ∀ a b : α, less a b = true → less b a = false)
    (hneg : ∀ a b c : α, less c b = false → less b a = false → less c a = false)
    (l : List α) (H : heapOrd less l l.length) :
    List.Pairwise (fun a b => less b a = false) (popAll less l) := by
  induction l using popAll.induct less with
  | case1 l h =>
    rw [popAll, dif_pos h]
    exact List.Pairwise.nil
  | case2 l h ih =>
    have hne : l ≠ [] := by intro hc; rw [hc] at h; exact h rfl
    rw [popAll, dif_neg h]
    refine List.Pairwise.cons ?_ (ih (heapPop_heapOrd hasymm hneg l hne H))
    intro b hb
    have hbl : b ∈ l := by
      have := (popAll_perm (heapPop less l).2).mem_iff.mp hb
      exact (heapPop_perm l hne).mem_iff.mp (List.mem_cons_of_mem _ this)
    obtain ⟨m, hm, rfl⟩ := List.mem_iff_getElem.mp hbl
    rw [heapPop_fst l hne, ← List.getD_eq_getElem l default hm]
    exact heapOrd_root_min hasymm hneg l l.length H m hm

end ContainerHeap

/-! ## The upload manager's queue operations

From `uploadmanager.go`:

```go
func (m *uploadManager) AddBag(ctx context.Context, bag *bagMetadata) {
    m.mutex.Lock()
    defer m.mutex.Unlock()
    heap.Push(&m.queue, bag)
    go m.StartWorker(ctx)
}

func (m *uploadManager) nextBag() *bagMetadata {
    if len(m.queue) == 0 {
        return nil
    }
    bag := heap.Pop(&m.queue).(*bagMetadata)
    if len(m.queue) < cap(m.queue)/3 {
        old := m.queue
        m.queue = make(bagQueue, len(old))
        copy(m.queue, old)
    }
    return bag
}
```

`AddBag`'s worker spawn belongs to the semaphore transition system below;
here only the queue mutation is embedded.  `nextBag`'s shrink step copies
the elements into a fresh exact-length array: slice capacity is not part of
the value-level state, so the copy is the identity on the embedded list. -/

def AddBag (queue : List bagMetadata) (bag : bagMetadata) : List bagMetadata :=
  heapPush bagLess queue bag

def nextBag (queue : List bagMetadata) : Option (bagMetadata × List bagMetadata) :=
  if queue.length = 0 then none
  else some (heapPop bagLess queue)

/-- Push a whole sequence of bags through `AddBag`, starting from the empty
queue of a fresh manager. -/
def pushAllBags (bags : List bagMetadata) : List bagMetadata :=
  bags.foldl AddBag []

/-- One step of draining: `popAll`'s step is exactly `nextBag`'s pop. -/
theorem popAll_step_eq_nextBag (queue : List bagMetadata) :
    popAll bagLess queue =
      (match nextBag queue with
       | none => []
       | some (b, rest) => b :: popAll bagLess rest) := by
  unfold nextBag
  rcases Decidable.em (queue.length = 0) with hq | hq
  · rw [if_pos hq, popAll, dif_pos hq]
  · rw [if_neg hq, popAll, dif_neg hq]

/-- The sequence of segments returned by successive `nextBag` pops after a
sequence of `AddBag` pushes into a fresh queue. -/
def popsOf (bags : List bagMetadata) : List bagMetadata :=
  popAll bagLess (pushAllBags bags)

theorem pushAllBags_aux_perm (bags : List bagMetadata) :
    ∀ q : List bagMetadata, List.Perm (bags.foldl AddBag q) (bags ++ q) := by
  induction bags with
  | nil => intro q; simp
  | cons b bs ih =>
    intro q
    have h1 : List.Perm (AddBag q b) (b :: q) := heapPush_perm q b
    exact (ih (AddBag q b)).trans ((List.Perm.append_left bs h1).trans List.perm_middle)

theorem pushAllBags_perm (bags : List bagMetadata) :
    List.Perm (pushAllBags bags) bags := by
  have := pushAllBags_aux_perm bags []
  simpa [pushAllBags] using this

theorem pushAllBags_heapOrd (bags : List bagMetadata) :
    heapOrd bagLess (pushAllBags bags) (pushAllBags bags).length := by
  unfold pushAllBags
  suffices h : ∀ q : List bagMetadata, heapOrd bagLess q q.length →
      heapOrd bagLess (bags.foldl AddBag q) (bags.foldl AddBag q).length by
    exact h [] (fun j hj0 hj => by simp at hj)
  induction bags with
  | nil => intro q hq; exact hq
  | cons b bs ih =>
    intro q hq
    refine ih (AddBag q b) ?_
    have := heapPush_heapOrd bagLess_asymm bagLess_negtrans q b hq
    unfold AddBag
    rwa [heapPush_length]

/-- The order the spec claims between a pop and any strictly later pop:
new segments precede backlog segments, new-before-new is strictly
number-decreasing, backlog-before-backlog is strictly number-increasing. -/
def claimPopRel (a b : bagMetadata) : Prop :=
  (a.isNew = false → b.isNew = false) ∧
  (a.isNew = true → b.isNew = true → a.number > b.number) ∧
  (a.isNew = false → b.isNew = false → a.number < b.number)

theorem claimPopRel_of_le_of_keyNe (a b : bagMetadata)
    (h1 : bagLess b a = false)
    (h2 : a.isNew = b.isNew → a.number ≠ b.number) : claimPopRel a b := by
  unfold bagLess at h1
  unfold claimPopRel
  cases ha : a.isNew <;> cases hb : b.isNew <;> simp_all <;> omega

/-- Claim C2 (counterexample): the claimed pop ordering fails as stated,
because nothing prevents two pushed segments from sharing a segment number
and an `is_new` flag (for example two backlog directories both contribute a
segment 0); then the two pops tie and are not strictly ordered.  Here two
new segments numbered 5 are pushed and the popped sequence violates strict
decrease. -/
theorem claimC2_counterexample :
    ¬ List.Pairwise claimPopRel
        (popsOf [⟨"a", 5, true⟩, ⟨"b", 5, true⟩]) := by
  intro hp
  have hperm : List.Perm (popsOf [⟨"a", 5, true⟩, ⟨"b", 5, true⟩])
      [⟨"a", 5, true⟩, ⟨"b", 5, true⟩] :=
    (popAll_perm _).trans (pushAllBags_perm _)
  have hmem : ∀ x ∈ popsOf [⟨"a", 5, true⟩, ⟨"b", 5, true⟩],
      x.number = 5 ∧ x.isNew = true := by
    intro x hx
    have hx2 := hperm.mem_iff.mp hx
    simp only [List.mem_cons, List.not_mem_nil, or_false] at hx2
    rcases hx2 with h | h <;> (rw [h]; exact ⟨rfl, rfl⟩)
  have hlen := hperm.length_eq
  rcases hps : popsOf [⟨"a", 5, true⟩, ⟨"b", 5, true⟩] with _ | ⟨x, _ | ⟨y, t⟩⟩
  · rw [hps] at hlen; simp at hlen
  · rw [hps] at hlen; simp at hlen
  · rw [hps] at hp hmem
    have hxy : claimPopRel x y := (List.pairwise_cons.mp hp).1 y (by simp)
    have hx := hmem x (by simp)
    have hy := hmem y (by simp)
    have := hxy.2.1 hx.2 hy.2
    rw [hx.1, hy.1] at this
    omega

/-- Claim C2 (amended): for any sequence of `AddBag` pushes into a fresh
queue in which no two pushed segments share both their `is_new` flag and
their segment number, the sequence of successive `nextBag` pops satisfies:
every new segment is popped before every backlog segment, the numbers of the
popped new segments are strictly decreasing, and the numbers of the popped
backlog segments are strictly increasing. -/
theorem claimC2_theorem (bags : List bagMetadata)
    (hdist : List.Pairwise (fun a b => a.isNew = b.isNew → a.number ≠ b.number) bags) :
    List.Pairwise claimPopRel (popsOf bags) := by
  have hsorted : List.Pairwise (fun a b => bagLess b a = false) (popsOf bags) :=
    popAll_sorted bagLess_asymm bagLess_negtrans (pushAllBags bags)
      (pushAllBags_heapOrd bags)
  have hperm : List.Perm (popsOf bags) bags :=
    (popAll_perm _).trans (pushAllBags_perm _)
  have hdist' : List.Pairwise (fun a b : bagMetadata =>
      a.isNew = b.isNew → a.number ≠ b.number) (popsOf bags) :=
    (hperm.pairwise_iff (fun h heq => by
      exact fun hn => (h heq.symm) hn.symm)).mpr hdist
  exact (hsorted.and hdist').imp
    (fun h => claimPopRel_of_le_of_keyNe _ _ h.1 h.2)

/-- Claim C2 (witness): the amended ordering theorem applied to a concrete
push sequence with pairwise-distinct segment numbers in each class. -/
theorem claimC2_witness :
    List.Pairwise (fun a b : bagMetadata => a.isNew = b.isNew → a.number ≠ b.number)
      [⟨"n1", 1, true⟩, ⟨"b1", 7, false⟩, ⟨"n2", 3, true⟩] ∧
    List.Pairwise claimPopRel
      (popsOf [⟨"n1", 1, true⟩, ⟨"b1", 7, false⟩, ⟨"n2", 3, true⟩]) :=
  ⟨by decide, claimC2_theorem _ (by decide)⟩

/-! ## `path/filepath` (unix): `Clean`, `Base`, `Dir`, `Join`

`newBagMetadata` renames a file inside its directory via `filepath.Dir`,
`filepath.Base` and `filepath.Join`; these are embedded from the Go standard
library's unix implementation (`VolumeName` is empty, the separator is
`'/'`, `FromSlash` is the identity). -/

/-- The backtracking step of `Clean`'s `..` handling (`out.w--` followed by
`for out.w > dotdot && !os.IsPathSeparator(out.index(out.w)) { out.w-- }`):
`content` is the buffer after the first unconditional pop and `c` is the
character that pop removed; keep popping until a separator has been popped
or the write index reaches `dotdot`. -/
def dotdotStrip (content : List Char) (c : Char) (dotdot : Nat) : List Char :=
  if content.length > dotdot ∧ c ≠ '/' then
    dotdotStrip content.dropLast (content.getLastD default) dotdot
  else content
termination_by content.length
decreasing_by
  rw [List.length_dropLast]
  omega

/-- The main loop of `filepath.Clean` (over the remaining input `cs`, the
output buffer `out` and the `dotdot` barrier). -/
def cleanLoop (rooted : Bool) (cs out : List Char) (dotdot : Nat) : List Char :=
  match h : cs with
  | [] => out
  | c :: rest =>
    if c = '/' then
      -- empty path element
      cleanLoop rooted rest out dotdot
    else if c = '.' ∧ (rest = [] ∨ rest.head? = some '/') then
      -- "." element
      cleanLoop rooted rest out dotdot
    else if c = '.' ∧ rest.head? = some '.' ∧ (rest.tail = [] ∨ rest.tail.head? = some '/') then
      -- ".." element
      if out.length > dotdot then
        cleanLoop rooted rest.tail (dotdotStrip out.dropLast (out.getLastD default) dotdot)
          dotdot
      else if !rooted then
        cleanLoop rooted rest.tail
          ((if out.length > 0 then out ++ ['/'] else out) ++ ['.', '.'])
          ((if out.length > 0 then out ++ ['/'] else out) ++ ['.', '.']).length
      else
        cleanLoop rooted rest.tail out dotdot
    else
      -- a real path element: maybe add a separator, then copy the element
      cleanLoop rooted (rest.dropWhile (· ≠ '/'))
        ((if (rooted ∧ out.length ≠ 1) ∨ (!rooted ∧ out.length ≠ 0) then out ++ ['/'] else out)
          ++ c :: rest.takeWhile (· ≠ '/'))
        dotdot
termination_by cs.length
decreasing_by
  all_goals simp_all
  all_goals try omega
  all_goals
    have hle : (List.dropWhile (fun x => !decide (x = '/')) rest).length ≤ rest.length :=
      (List.dropWhile_sublist _).length_le
  all_goals omega

/-- `filepath.Clean` (unix). -/
def goFilepathClean (path : String) : String :=
  if path = "" then "."
  else
    let cs := path.data
    let res :=
      if cs.head? = some '/' then cleanLoop true cs.tail ['/'] 1
      else cleanLoop false cs [] 0
    if res.length = 0 then "." else String.mk res

/-- `filepath.Base` (unix). -/
def goFilepathBase (path : String) : String :=
  if path = "" then "."
  else
    let p1 := (path.data.reverse.dropWhile (· = '/')).reverse
    let p2 := (p1.reverse.takeWhile (· ≠ '/')).reverse
    if p2 = [] then "/" else String.mk p2

/-- `filepath.Dir` (unix): everything up to and including the final
separator, cleaned. -/
def goFilepathDir (path : String) : String :=
  goFilepathClean (String.mk ((path.data.reverse.dropWhile (· ≠ '/')).reverse))

/-- `filepath.Join` for two elements: skip leading empty elements, then
clean the `/`-joined rest. -/
def goFilepathJoin (a b : String) : String :=
  if a ≠ "" then goFilepathClean (a ++ "/" ++ b)
  else if b ≠ "" then goFilepathClean b
  else ""

/-! ## The recorder's segment filename convention (`recorder.go`) -/

/-- Value of an all-digit character run. -/
def digitsVal (ds : List Char) : Nat :=
  ds.foldl (fun acc c => 10 * acc + (c.toNat - '0'.toNat)) 0

/-- `bagNumberRegex.FindStringSubmatch` on a base name, for the pattern
`^(.*)_(\d+)\.db3$` under Go's leftmost-greedy semantics: the anchored
pattern matches iff the string ends in `.db3` and the stem before it splits
as `pre ++ "_" ++ ds` with `ds` nonempty and all digits.  Because `ds`
contains no underscore, such a split is unique when it exists: `ds` must be
the maximal digit run ending the stem, preceded by `'_'`.  Go's `.` does
not match a newline, so the `(.*)` capture may not contain `'\n'` (the
underscore, the digits and `.db3` cannot).  Returns
`some (matches[1], matches[2])` on a match. -/
def bagNumberMatch (base : String) : Option (String × String) :=
  let cs := base.data
  if cs.length ≥ 4 ∧ cs.drop (cs.length - 4) = ['.', 'd', 'b', '3'] then
    let t := cs.take (cs.length - 4)
    let ds := (t.reverse.takeWhile Char.isDigit).reverse
    let pre := t.take (t.length - ds.length)
    if ds ≠ [] ∧ pre.getLast? = some '_' ∧ ¬ pre.dropLast.contains '\n' then
      some (String.mk pre.dropLast, String.mk ds)
    else none
  else none

/-- `strconv.Atoi` on the all-digit strings produced by `bagNumberRegex`'s
second capture group: with Go's 64-bit `int`, an all-digit string parses to
its value when that value fits in `int64` and otherwise returns `ErrRange`
(the clamped value accompanying the error is never used because
`newBagMetadata` panics on any error). -/
def goAtoiDigits (ds : String) : Except Unit Int :=
  if (digitsVal ds.data : Int) ≤ int64Max then .ok (digitsVal ds.data) else .error ()

/-- The path of the sibling bag `<prefix>_<n>.db3` in `path`'s directory,
as `newBagMetadata` builds it (`fmt.Sprintf("%s_%d.db3", ...)` then
`filepath.Join(dir, base)`). -/
def renamedSibling (path pre : String) (n : Int) : String :=
  goFilepathJoin (goFilepathDir path) (pre ++ "_" ++ toString n ++ ".db3")

/-- `newBagMetadata` from `recorder.go`:

```go
func newBagMetadata(path string, delta int, isNew bool) *bagMetadata {
    dir := filepath.Dir(path)
    base := filepath.Base(path)
    matches := bagNumberRegex.FindStringSubmatch(base)
    if matches == nil {
        return nil
    }
    bagNumber, err := strconv.Atoi(matches[2])
    if err != nil {
        // We don't return an error value since the regex should only match a
        // parsable integer. If a parsing error occurs, it is an error in the
        // regex.
        panic(err)
    }
    bagNumber += delta
    base = fmt.Sprintf("%s_%d.db3", matches[1], bagNumber)
    return &bagMetadata{ ... }
}
```

`.ok none` embeds the `nil` return, `.error ()` embeds the `panic(err)`
branch, and `bagNumber += delta` wraps like Go's 64-bit `int` addition. -/
def newBagMetadata (path : String) (delta : Int) (isNew : Bool) :
    Except Unit (Option bagMetadata) :=
  match bagNumberMatch (goFilepathBase path) with
  | none => .ok none
  | some (pre, ds) =>
    match goAtoiDigits ds with
    | .error e => .error e
    | .ok v =>
      .ok (some ⟨renamedSibling path pre (wrap64 (v + delta)), wrap64 (v + delta), isNew⟩)

/-- `missionDataRecorder.notifyIfBagReady`:

```go
if bag := newBagMetadata(bagPath, -1, true); bag != nil && bag.number >= 0 {
    go onBagReady(ctx, bag)
}
```

The result `.ok (some bag)` stands for the single emitted ready event,
`.ok none` for no event, `.error ()` for the panic inside
`newBagMetadata`. -/
def notifyIfBagReady (path : String) : Except Unit (Option bagMetadata) :=
  match newBagMetadata path (-1) true with
  | .error e => .error e
  | .ok (some bag) => if bag.number ≥ 0 then .ok (some bag) else .ok none
  | .ok none => .ok none

/-- Claim C3 (amended theorem): for a create event whose base name matches
`^(.*)_(N)\.db3$` with digits value `N` at most `2^63 - 1`, the watcher
emits exactly one ready event when `N ≥ 1`, for the sibling file
`<prefix>_<N-1>.db3` with segment number `N - 1` flagged new, and emits
nothing when `N = 0`; for a file whose base name does not match, it emits
nothing. -/
theorem claimC3_theorem :
    (∀ path pre ds, bagNumberMatch (goFilepathBase path) = some (pre, ds) →
      digitsVal ds.data ≤ 2 ^ 63 - 1 →
      notifyIfBagReady path =
        (if 1 ≤ digitsVal ds.data then
          Except.ok (some ⟨renamedSibling path pre ((digitsVal ds.data : Int) - 1),
            (digitsVal ds.data : Int) - 1, true⟩)
        else Except.ok none)) ∧
    (∀ path, bagNumberMatch (goFilepathBase path) = none →
      notifyIfBagReady path = Except.ok none) := by
  constructor
  · intro path pre ds hmatch hrange
    have hv : (digitsVal ds.data : Int) ≤ int64Max := by unfold int64Max; omega
    have hw : wrap64 ((digitsVal ds.data : Int) + (-1)) = (digitsVal ds.data : Int) - 1 :=
      wrap64_eq_of_inbounds _ (by omega) (by omega)
    unfold notifyIfBagReady newBagMetadata
    rw [hmatch]
    simp only [goAtoiDigits, if_pos hv, hw]
    rcases Nat.lt_or_ge (digitsVal ds.data) 1 with hlt | hge
    · rw [if_neg (by omega), if_neg (by omega)]
    · rw [if_pos (by omega), if_pos (by omega)]
  · intro path hmatch
    unfold notifyIfBagReady newBagMetadata
    rw [hmatch]

/-- Claim C3 (witness): on creation of `/out/rec_2.db3` exactly one ready
event is emitted, for segment 1 at `/out/rec_1.db3`; on `/out/rec_0.db3`
and on the non-matching `/out/metadata.yaml`, none is emitted. -/
theorem claimC3_witness :
    bagNumberMatch (goFilepathBase "/out/rec_2.db3") = some ("rec", "2") ∧
    digitsVal ("2" : String).data ≤ 2 ^ 63 - 1 ∧
    notifyIfBagReady "/out/rec_2.db3" =
      (if 1 ≤ digitsVal ("2" : String).data then
        Except.ok (some ⟨renamedSibling "/out/rec_2.db3" "rec" ((digitsVal ("2" : String).data : Int) - 1),
          (digitsVal ("2" : String).data : Int) - 1, true⟩)
      else Except.ok none) ∧
    bagNumberMatch (goFilepathBase "/out/metadata.yaml") = none ∧
    notifyIfBagReady "/out/metadata.yaml" = Except.ok none :=
  ⟨by decide, by decide,
    claimC3_theorem.1 "/out/rec_2.db3" "rec" "2" (by decide) (by decide),
    by decide,
    claimC3_theorem.2 "/out/metadata.yaml" (by decide)⟩

/-- Claim C3 (counterexample): the claim quantifies over every matching
base name with `N ≥ 1`, but for
`x_9223372036854775808.db3` (digits value `2^63`, which matches the pattern
with `N ≥ 1`) `strconv.Atoi` overflows, `newBagMetadata` takes its panic
branch, and no ready event for `N-1` is emitted. -/
theorem claimC3_counterexample :
    bagNumberMatch (goFilepathBase "x_9223372036854775808.db3") =
      some ("x", "9223372036854775808") ∧
    1 ≤ digitsVal ("9223372036854775808" : String).data ∧
    notifyIfBagReady "x_9223372036854775808.db3" = Except.error () := by
  refine ⟨by decide, by decide, ?_⟩
  rfl

/-- Claim C10 (amended theorem): `newBagMetadata` returns `nil` exactly when
the base name does not match `^(.*)_(\d+)\.db3$`; on a match whose digits
value fits in `int64` it returns a bag numbered `digits + delta` (wrapped to
64 bits) whose path is the same directory with the base renamed to
`<prefix>_<number>.db3`; and it panics exactly on a match whose digits value
exceeds `2^63 - 1` (so the panic branch, contrary to the claim, is
reachable). -/
theorem claimC10_theorem :
    (∀ path delta isNew, bagNumberMatch (goFilepathBase path) = none →
      newBagMetadata path delta isNew = Except.ok none) ∧
    (∀ path delta isNew pre ds, bagNumberMatch (goFilepathBase path) = some (pre, ds) →
      digitsVal ds.data ≤ 2 ^ 63 - 1 →
      newBagMetadata path delta isNew =
        Except.ok (some ⟨renamedSibling path pre (wrap64 ((digitsVal ds.data : Int) + delta)),
          wrap64 ((digitsVal ds.data : Int) + delta), isNew⟩)) ∧
    (∀ path delta isNew pre ds, bagNumberMatch (goFilepathBase path) = some (pre, ds) →
      2 ^ 63 - 1 < digitsVal ds.data →
      newBagMetadata path delta isNew = Except.error ()) := by
  refine ⟨?_, ?_, ?_⟩
  · intro path delta isNew hmatch
    unfold newBagMetadata
    rw [hmatch]
  · intro path delta isNew pre ds hmatch hrange
    have hv : (digitsVal ds.data : Int) ≤ int64Max := by unfold int64Max; omega
    unfold newBagMetadata
    rw [hmatch]
    simp only [goAtoiDigits, if_pos hv]
  · intro path delta isNew pre ds hmatch hrange
    have hv : ¬ (digitsVal ds.data : Int) ≤ int64Max := by unfold int64Max; omega
    unfold newBagMetadata
    rw [hmatch]
    simp only [goAtoiDigits, if_neg hv]

/-- Claim C10 (witness): the amended theorem applied at concrete inputs:
the matching path `/d/rec_7.db3` with `delta = -1` yields a bag numbered 6
at `/d/rec_6.db3`, and the non-matching path `/d/notes.txt` yields `nil`. -/
theorem claimC10_witness :
    bagNumberMatch (goFilepathBase "/d/rec_7.db3") = some ("rec", "7") ∧
    digitsVal ("7" : String).data ≤ 2 ^ 63 - 1 ∧
    newBagMetadata "/d/rec_7.db3" (-1) false =
      Except.ok (some ⟨renamedSibling "/d/rec_7.db3" "rec"
          (wrap64 ((digitsVal ("7" : String).data : Int) + (-1))),
        wrap64 ((digitsVal ("7" : String).data : Int) + (-1)), false⟩) ∧
    bagNumberMatch (goFilepathBase "/d/notes.txt") = none ∧
    newBagMetadata "/d/notes.txt" 0 true = Except.ok none :=
  ⟨by decide, by decide,
    claimC10_theorem.2.1 "/d/rec_7.db3" (-1) false "rec" "7" (by decide) (by decide),
    by decide,
    claimC10_theorem.1 "/d/notes.txt" 0 true (by decide)⟩

/-- Claim C10 (counterexample): the panic branch is reachable: the base
name `a_99999999999999999999.db3` matches the regex but its digits value
exceeds `2^63 - 1`, so `strconv.Atoi` returns `ErrRange` and
`newBagMetadata` panics instead of returning a bag or `nil`. -/
theorem claimC10_counterexample :
    bagNumberMatch (goFilepathBase "a_99999999999999999999.db3") =
      some ("a", "99999999999999999999") ∧
    newBagMetadata "a_99999999999999999999.db3" 0 false = Except.error () := by
  exact ⟨by decide, by rfl⟩

/-! ## Updatable configuration parsing (`config.go`)

`parseUpdatableConfigYAML` feeds the message text to `yaml.Unmarshal`.  The
YAML scanner/resolver (gopkg.in/yaml.v3) is an external collaborator: its
output is a resolved document, embedded as `yamlValue` (`!!null`, `!!str`,
`!!int`, `!!float` — embedded as a rational, `!!seq`, `!!map`).  What the
repository owns — the struct tags, the custom `UnmarshalYAML` methods, the
defaults, the validation — is embedded exactly; the library's scalar-into-
field conversions follow yaml.v3's documented decoding (an explicit null or
an absent key leaves the field at its prior/default value, a float stored
into an `int` field is truncated toward zero, as the repository's own test
snapshot for `max_upload_count: 2.2` records). -/

inductive yamlValue where
  | null
  | str (s : String)
  | int (i : Int)
  | float (q : Rat)
  | list (xs : List yamlValue)
  | map (kvs : List (String × yamlValue))

/-- `parseCommaSeparatedList` from `main.go`:

```go
func parseCommaSeparatedList(s string) []string {
    if s == "" {
        return nil
    }
    return strings.Split(s, ",")
}
```

`strings.Split` with a one-character separator is embedded directly over
the character list. -/
def splitOnCommaChars : List Char → List (List Char)
  | [] => [[]]
  | c :: rest =>
    if c = ',' then [] :: splitOnCommaChars rest
    else
      match splitOnCommaChars rest with
      | [] => [[c]]
      | g :: gs => (c :: g) :: gs

def parseCommaSeparatedList (s : String) : List String :=
  if s = "" then [] else (splitOnCommaChars s.data).map (fun g => String.mk g)

structure topicList where
  Topics : List String
  All : Bool
deriving Repr, DecidableEq, Inhabited

def errTopicsMsg : String := "'topics' must be an empty string, '*' or a list of strings"

/-- `topicList.Set` (current `config.go`; it implements `pflag.Value` and
never returns an error):

```go
func (l *topicList) Set(val string) error {
    switch val {
    case "":
        l.All = false
        l.Topics = nil
    case "*":
        l.All = true
        l.Topics = nil
    default:
        l.All = false
        l.Topics = parseCommaSeparatedList(val)
    }
    return nil
}
```
-/
def topicList.Set (val : String) : topicList :=
  match val with
  | "" => ⟨[], false⟩
  | "*" => ⟨[], true⟩
  | _ => ⟨parseCommaSeparatedList val, false⟩

/-- The `[]interface{}` loop of `topicList.Parse`: collect the elements
that are strings, fail with `errTopicsMsg` at a non-string element. -/
def topicStrings : List yamlValue → Except String (List String)
  | [] => .ok []
  | .str s :: rest =>
    match topicStrings rest with
    | .ok ts => .ok (s :: ts)
    | .error e => .error e
  | _ :: _ => .error errTopicsMsg

/-- `topicList.Parse` (current `config.go`), over the decoded
`interface{}` value:

```go
func (l *topicList) Parse(val interface{}) (interface{}, error) {
    const errMsg = "'topics' must be an empty string, '*' or a list of strings"
    switch topics := val.(type) {
    case nil:
        return topicList{}, nil
    case string:
        var tl topicList
        if err := tl.Set(topics); err != nil {
            return nil, err
        }
        return tl, nil
    case []interface{}:
        ...append strings, errMsg on a non-string element...
    }
    return nil, errors.New(errMsg)
}
```

`topicList.UnmarshalYAML` (current variant) decodes the node into an
`interface{}` and calls `Parse`, so it is this function. -/
def topicList.Parse : yamlValue → Except String topicList
  | .null => .ok ⟨[], false⟩
  | .str s => .ok (topicList.Set s)
  | .list xs =>
    match topicStrings xs with
    | .ok ts => .ok ⟨ts, false⟩
    | .error e => .error e
  | _ => .error errTopicsMsg

/-- `topicList.UnmarshalYAML` of the older `config.go` variant
(config.go:295-314): first try to decode the node as `[]string`; if that
fails, decode it as a string and accept only `""` and `"*"`.

A `!!null` node decodes into `[]string` as `nil`; a `!!seq` of strings
decodes elementwise; any other node fails the list decode.  The fallback
string decode succeeds for scalars (yielding the raw scalar text, which for
non-string scalars is never `""` or `"*"`, so those reach the error branch
either way) and fails for sequences/mappings. -/
def topicList.UnmarshalYAMLOld : yamlValue → Except String topicList
  | .null => .ok ⟨[], false⟩
  | .list xs =>
    match topicStrings xs with
    | .ok ts => .ok ⟨ts, false⟩
    | .error _ => .error errTopicsMsg
  | .str "" => .ok ⟨[], false⟩
  | .str "*" => .ok ⟨[], true⟩
  | _ => .error errTopicsMsg

/-- `compressionMode.Set` (`uploader.go`):

```go
func (m *compressionMode) Set(s string) error {
    switch s {
    case "none":
        *m = compressionNone
    case "gzip":
        *m = compressionGzip
    case "xz":
        *m = compressionXz
    default:
        return fmt.Errorf("unknown compression mode: %s", s)
    }
    return nil
}
```

The Go `compressionMode` is a string type; it is embedded as `String`. -/
def compressionModeSet (s : String) : Except String String :=
  match s with
  | "none" => .ok "none"
  | "gzip" => .ok "gzip"
  | "xz" => .ok "xz"
  | _ => .error ("unknown compression mode: " ++ s)

/-- `compressionMode.UnmarshalYAML`: decode the node into a string
(yaml.v3 yields the raw scalar text for any scalar; a `!!int` or `!!float`
raw text is never one of the three keywords, and sequences/mappings fail
the string decode), then `Set` it. -/
def compressionModeUnmarshalYAML : yamlValue → Except String String
  | .str s => compressionModeSet s
  | .int i => compressionModeSet (toString i)
  | .float _ => .error ("unknown compression mode: " ++ "<float scalar>")
  | .null => compressionModeSet ""
  | _ => .error "yaml: cannot unmarshal into string"

/-- yaml.v3 decoding of a scalar into a Go `int` field holding `cur`:
an absent key never reaches this; an explicit null leaves the field
unchanged; an integer scalar is range-checked against `int64`; a float
scalar is truncated toward zero (`int64(f)`) when it fits. -/
def decodeGoIntField (cur : Int) : yamlValue → Except String Int
  | .null => .ok cur
  | .int i => if -2 ^ 63 ≤ i ∧ i ≤ 2 ^ 63 - 1 then .ok i else .error "yaml: int overflow"
  | .float q =>
    if (q.num.div (q.den : Int) : Int) ≤ 2 ^ 63 - 1 ∧ -2 ^ 63 ≤ (q.num.div (q.den : Int) : Int)
    then .ok (q.num.div (q.den : Int)) else .error "yaml: float overflow"
  | _ => .error "yaml: cannot unmarshal into int"

/-- yaml.v3 decoding into a `[]string` field. -/
def decodeGoStringSliceField (cur : List String) : yamlValue → Except String (List String)
  | .null => .ok cur
  | .list xs =>
    match topicStrings xs with
    | .ok ts => .ok ts
    | .error _ => .error "yaml: cannot unmarshal into []string"
  | _ => .error "yaml: cannot unmarshal into []string"

def defaultSizeThreshold : Int := 10000000

def defaultMaxUploadCount : Int := 5

def defaultCompressionMode : String := "none"

structure updatableConfig where
  Topics : topicList
  SizeThreshold : Int
  ExtraArgs : List String
  MaxUploadCount : Int
  CompressionMode : String
deriving Repr, DecidableEq, Inhabited

/-- The first map value stored under key `k`. -/
def lookupYamlKey (kvs : List (String × yamlValue)) (k : String) : Option yamlValue :=
  (kvs.find? (fun kv => kv.1 = k)).map (fun kv => kv.2)

/-- Apply one decoded field if its key is present (unknown keys in the
document are simply never looked up, embedding "unknown keys are
ignored"). -/
def decodeFieldWith {β : Type} (dec : yamlValue → Except String β)
    (kvs : List (String × yamlValue)) (k : String) (cur : β) : Except String β :=
  match lookupYamlKey kvs k with
  | none => .ok cur
  | some v => dec v

/-- `yaml.Unmarshal` of the message into the `updatableConfig` struct with
its field defaults preset, following the struct tags of `config.go`:

```go
type updatableConfig struct {
    Topics          topicList       `yaml:"topics"`
    SizeThreshold   int             `yaml:"size_threshold"`
    ExtraArgs       []string        `yaml:"extra_args"`
    MaxUploadCount  int             `yaml:"max_upload_count"`
    CompressionMode compressionMode `yaml:"compression_mode"`
}
```

An empty message parses as a null document and leaves every default. -/
def decodeUpdatableConfig (topicsDec : yamlValue → Except String topicList)
    (doc : yamlValue) : Except String updatableConfig :=
  match doc with
  | .null =>
    .ok ⟨⟨[], false⟩, defaultSizeThreshold, [], defaultMaxUploadCount, defaultCompressionMode⟩
  | .map kvs =>
    match decodeFieldWith topicsDec kvs "topics" ⟨[], false⟩ with
    | .error e => .error e
    | .ok topics =>
    match decodeFieldWith (decodeGoIntField defaultSizeThreshold) kvs "size_threshold"
        defaultSizeThreshold with
    | .error e => .error e
    | .ok sizeThreshold =>
    match decodeFieldWith (decodeGoStringSliceField []) kvs "extra_args" [] with
    | .error e => .error e
    | .ok extraArgs =>
    match decodeFieldWith (decodeGoIntField defaultMaxUploadCount) kvs "max_upload_count"
        defaultMaxUploadCount with
    | .error e => .error e
    | .ok maxUploadCount =>
    match decodeFieldWith compressionModeUnmarshalYAML kvs "compression_mode"
        defaultCompressionMode with
    | .error e => .error e
    | .ok compressionMode =>
      .ok ⟨topics, sizeThreshold, extraArgs, maxUploadCount, compressionMode⟩
  | _ => .error "yaml: cannot unmarshal document into struct"

/-- `parseUpdatableConfigYAML` (current `config.go`):

```go
func parseUpdatableConfigYAML(s string) (*updatableConfig, error) {
    config := updatableConfig{
        SizeThreshold:   defaultSizeThreshold,
        MaxUploadCount:  defaultMaxUploadCount,
        CompressionMode: defaultCompressionMode,
    }
    if err := yaml.Unmarshal([]byte(s), &config); err != nil {
        return nil, err
    }
    if config.MaxUploadCount < 0 {
        return nil, errors.New("'max-upload-count' must be non-negative")
    }
    return &config, nil
}
```

The argument is the resolved YAML document of the message text. -/
def parseUpdatableConfigYAML (doc : yamlValue) : Except String updatableConfig :=
  match decodeUpdatableConfig topicList.Parse doc with
  | .error e => .error e
  | .ok config =>
    if config.MaxUploadCount < 0 then .error "'max-upload-count' must be non-negative"
    else .ok config

/-- `parseConfigYAML` of the older `config.go` variant (config.go:324-337):
identical except that `topics` is decoded by the older
`topicList.UnmarshalYAML` (its `config` struct carries the same fields). -/
def parseConfigYAML (doc : yamlValue) : Except String updatableConfig :=
  match decodeUpdatableConfig topicList.UnmarshalYAMLOld doc with
  | .error e => .error e
  | .ok config =>
    if config.MaxUploadCount < 0 then .error "'max-upload-count' must be non-negative"
    else .ok config

/-- Claim C5 (counterexample): in the current parser, the message
`topics: alll` does not fail: `topicList.Parse` routes every string through
`topicList.Set`, which never errors and treats `alll` as a one-element
comma-separated topic list.  (The older variant rejects it as the claim
describes, second conjunct.) -/
theorem claimC5_counterexample :
    parseUpdatableConfigYAML (.map [("topics", .str "alll")]) =
      .ok ⟨⟨["alll"], false⟩, defaultSizeThreshold, [], defaultMaxUploadCount,
        defaultCompressionMode⟩ ∧
    parseConfigYAML (.map [("topics", .str "alll")]) = .error errTopicsMsg := by
  exact ⟨rfl, rfl⟩

/-- Claim C5 (amended theorem): for every string `s` other than `""` and
`"*"`, the current `parseUpdatableConfigYAML` accepts `topics: s` as the
comma-separated topic list `parseCommaSeparatedList s` (with every other
field at its default), while the older variant's parser fails with
`'topics' must be an empty string, '*' or a list of strings` as the claim
states. -/
theorem claimC5_theorem (s : String) (h1 : s ≠ "") (h2 : s ≠ "*") :
    parseUpdatableConfigYAML (.map [("topics", .str s)]) =
      .ok ⟨⟨parseCommaSeparatedList s, false⟩, defaultSizeThreshold, [],
        defaultMaxUploadCount, defaultCompressionMode⟩ ∧
    parseConfigYAML (.map [("topics", .str s)]) = .error errTopicsMsg := by
  have hset : topicList.Set s = ⟨parseCommaSeparatedList s, false⟩ := by
    unfold topicList.Set
    split
    · exact absurd rfl h1
    · exact absurd rfl h2
    · rfl
  have hold : topicList.UnmarshalYAMLOld (.str s) = .error errTopicsMsg := by
    unfold topicList.UnmarshalYAMLOld
    split <;> simp_all
  constructor
  · have hstep : decodeFieldWith topicList.Parse [("topics", yamlValue.str s)] "topics"
        ⟨[], false⟩ = .ok ⟨parseCommaSeparatedList s, false⟩ := by
      unfold decodeFieldWith
      rw [show lookupYamlKey [("topics", yamlValue.str s)] "topics" = some (.str s) from rfl]
      simp only [topicList.Parse]
      rw [hset]
    unfold parseUpdatableConfigYAML
    simp only [decodeUpdatableConfig]
    rw [hstep]
    rfl
  · have hstep : decodeFieldWith topicList.UnmarshalYAMLOld [("topics", yamlValue.str s)]
        "topics" ⟨[], false⟩ = .error errTopicsMsg := by
      unfold decodeFieldWith
      rw [show lookupYamlKey [("topics", yamlValue.str s)] "topics" = some (.str s) from rfl]
      exact hold
    unfold parseConfigYAML
    simp only [decodeUpdatableConfig]
    rw [hstep]

/-- Claim C5 (witness): the amended theorem at `topics: foo,bar`, which the
current parser accepts as the two-topic list `["foo", "bar"]` and the older
parser rejects. -/
theorem claimC5_witness :
    ("foo,bar" : String) ≠ "" ∧ ("foo,bar" : String) ≠ "*" ∧
    (parseUpdatableConfigYAML (.map [("topics", .str "foo,bar")]) =
      .ok ⟨⟨parseCommaSeparatedList "foo,bar", false⟩, defaultSizeThreshold, [],
        defaultMaxUploadCount, defaultCompressionMode⟩ ∧
    parseConfigYAML (.map [("topics", .str "foo,bar")]) = .error errTopicsMsg) :=
  ⟨by decide, by decide, claimC5_theorem "foo,bar" (by decide) (by decide)⟩

/-- Claim C9 (theorem): `max_upload_count: -1` fails with exactly
`'max-upload-count' must be non-negative`, and `max_upload_count: 2.2`
(a YAML float — the rational `11/5` here; the `float64` rounding of `2.2`
has the same truncation — which yaml.v3 truncates toward zero into the
`int` field)
succeeds with `max_upload_count = 2` and every other field at its default —
as the repository's own snapshot test records. -/
theorem claimC9_theorem :
    parseUpdatableConfigYAML (.map [("max_upload_count", .int (-1))]) =
      .error "'max-upload-count' must be non-negative" ∧
    parseUpdatableConfigYAML (.map [("max_upload_count", .float (mkRat 11 5))]) =
      .ok ⟨⟨[], false⟩, defaultSizeThreshold, [], 2, defaultCompressionMode⟩ := by
  exact ⟨rfl, rfl⟩

/-! ## The bag uploader (`uploader.go`)

`UploadBag` is embedded denotationally over an environment of collaborator
outcomes: the opened file's byte stream, the sqlite query on the `messages`
table, the gzip/xz stream transformations (the `pipe` plumbing feeds the
whole source through the selected writer, so the bytes the HTTP layer reads
are the transformation of the source stream), the timestamp formatting, and
the two HTTP exchanges.  The embedding returns both `UploadBag`'s result
and a trace of the PUT that `uploadFile` performed (its URL and body), so
the claims about what is uploaded are statable. -/

inductive queryRes where
  | noRows
  | row (ts : Int)
  | dbErr
deriving DecidableEq, Repr

inductive uploadError where
  | emptyBag
  | openErr
  | dbErr
  | invalidMode (m : String)
  | urlErr
  | putErr
deriving DecidableEq, Repr

structure uploadEnv where
  fileContents : Option (List Nat)
  queryResult : queryRes
  gzipC : List Nat → List Nat
  xzC : List Nat → List Nat
  formatTime : Int → String
  urlResponse : String → Except Unit String
  putResponse : Except Unit Unit

/-- `withCompression` (both variants select the same transformation):
pass-through with extension `""` for `none`, the gzip stream with `.gz`,
the xz stream with `.xz`; any other mode string is rejected with the
`invalid compression mode` error. -/
def applyCompression (env : uploadEnv) (mode : String) (src : List Nat) :
    Except uploadError (List Nat × String) :=
  match mode with
  | "none" => .ok (src, "")
  | "gzip" => .ok (env.gzipC src, ".gz")
  | "xz" => .ok (env.xzC src, ".xz")
  | _ => .error (.invalidMode mode)

/-- `getRecordStartTime`:

```go
err = db.QueryRowContext(ctx, "SELECT timestamp FROM messages ORDER BY timestamp LIMIT 1").Scan(&timestamp)
if err != nil {
    if errors.Is(err, sql.ErrNoRows) {
        return time.Time{}, errEmptyBag
    }
    return time.Time{}, err
}
return time.Unix(0, timestamp).UTC(), nil
```
-/
def getRecordStartTime (env : uploadEnv) : Except uploadError Int :=
  match env.queryResult with
  | .noRows => .error .emptyBag
  | .dbErr => .error .dbErr
  | .row ts => .ok ts

/-- The current `UploadBag` (`uploader.go:483-504`, also `part_004`): open,
wrap in the compression pipe, read the record start time, request the
signed URL for `<time>.db3<ext>`, then PUT the **compressed** stream.
Result and PUT trace. -/
def uploadBagCurrent (env : uploadEnv) (mode : String) :
    Except uploadError Unit × Option (String × List Nat) :=
  match env.fileContents with
  | none => (.error .openErr, none)
  | some contents =>
    match applyCompression env mode contents with
    | .error e => (.error e, none)
    | .ok (compressed, ext) =>
      match getRecordStartTime env with
      | .error e => (.error e, none)
      | .ok ts =>
        match env.urlResponse (env.formatTime ts ++ ".db3" ++ ext) with
        | .error _ => (.error .urlErr, none)
        | .ok url =>
          match env.putResponse with
          | .error _ => (.error .putErr, some (url, compressed))
          | .ok _ => (.ok (), some (url, compressed))

/-- The first `UploadBag` variant (`uploader.go:215-236`): identical except
that the final call is `u.uploadFile(ctx, uploadURL, f)` — the PUT body is
the raw file handle, not `compressed`.  (In the gzip/xz modes the pipe's
copier goroutine concurrently drains the same handle, corrupting the body
further; that race is not modelled — the essential fact is that the body is
not the compressed stream.) -/
def uploadBagOld (env : uploadEnv) (mode : String) :
    Except uploadError Unit × Option (String × List Nat) :=
  match env.fileContents with
  | none => (.error .openErr, none)
  | some contents =>
    match applyCompression env mode contents with
    | .error e => (.error e, none)
    | .ok (_, ext) =>
      match getRecordStartTime env with
      | .error e => (.error e, none)
      | .ok ts =>
        match env.urlResponse (env.formatTime ts ++ ".db3" ++ ext) with
        | .error _ => (.error .urlErr, none)
        | .ok url =>
          match env.putResponse with
          | .error _ => (.error .putErr, some (url, contents))
          | .ok _ => (.ok (), some (url, contents))

/-- The per-bag tail of `uploadManager.StartWorker`:

```go
err := m.uploadBag(ctx, bag)
if err == nil {
    m.removeBagFiles(bag)
} else {
    if errors.Is(err, errEmptyBag) {
        m.removeBagFiles(bag)
    }
}
```

`true` means the worker removes the bag's local files. -/
def workerRemovesFiles : Except uploadError Unit → Bool
  | .ok _ => true
  | .error .emptyBag => true
  | .error _ => false

/-- In the current `UploadBag`, every PUT body is the output of the
selected compression transformation applied to the file contents. -/
theorem uploadBagCurrent_puts_compressed (env : uploadEnv) (mode : String)
    (contents : List Nat) (url : String) (body : List Nat)
    (hf : env.fileContents = some contents)
    (ht : (uploadBagCurrent env mode).2 = some (url, body)) :
    (mode = "none" → body = contents) ∧
    (mode = "gzip" → body = env.gzipC contents) ∧
    (mode = "xz" → body = env.xzC contents) := by
  unfold uploadBagCurrent at ht
  rw [hf] at ht
  unfold applyCompression at ht
  refine ⟨?_, ?_, ?_⟩ <;> intro hm <;> subst hm <;>
    (repeat' split at ht) <;> simp_all

/-- In the first `UploadBag` variant, every PUT body is the raw
uncompressed file contents, whatever the compression mode. -/
theorem uploadBagOld_puts_raw (env : uploadEnv) (mode : String)
    (contents : List Nat) (url : String) (body : List Nat)
    (hf : env.fileContents = some contents)
    (ht : (uploadBagOld env mode).2 = some (url, body)) :
    body = contents := by
  unfold uploadBagOld at ht
  rw [hf] at ht
  (repeat' split at ht) <;> simp_all

/-- A concrete collaborator environment for exercising `UploadBag`: a
three-byte bag file, a non-empty `messages` table, compression transforms
that visibly change the stream, and successful HTTP exchanges. -/
def uploadEnvC1 : uploadEnv :=
  ⟨some [1, 2, 3], .row 0, fun l => 7 :: l, fun l => 8 :: l, fun _ => "t",
    fun _ => .ok "u", .ok ()⟩

/-- Claim C1 (code bug, evaluated at the failing input): with gzip mode and
the bag file bytes `[1,2,3]`, the first `UploadBag` variant
(uploader.go:215-236) PUTs the raw bytes `[1,2,3]` — not the gzip stream
`[7,1,2,3]` that the claim and the spec require and that the current
variant (uploader.go:483-504) PUTs — even though the object is named with
the `.gz` extension. -/
theorem claimC1_theorem :
    (uploadBagOld uploadEnvC1 "gzip").2 = some ("u", [1, 2, 3]) ∧
    (uploadBagCurrent uploadEnvC1 "gzip").2 = some ("u", [7, 1, 2, 3]) ∧
    uploadEnvC1.gzipC [1, 2, 3] ≠ [1, 2, 3] := by
  exact ⟨rfl, rfl, by decide⟩

/-- Claim C7 (theorem): when the bag file opens and the compression mode is
one of the three valid modes, `UploadBag` fails with the empty-bag error
exactly when the `messages` table has no rows; and the upload worker
removes the bag's local files exactly after success or the empty-bag error,
leaving them in place on every other error. -/
theorem claimC7_theorem :
    (∀ (env : uploadEnv) (mode : String) (contents : List Nat),
      env.fileContents = some contents →
      (mode = "none" ∨ mode = "gzip" ∨ mode = "xz") →
      ((uploadBagCurrent env mode).1 = .error .emptyBag ↔ env.queryResult = .noRows)) ∧
    (∀ r : Except uploadError Unit,
      workerRemovesFiles r = true ↔ (r = .ok () ∨ r = .error .emptyBag)) := by
  constructor
  · intro env mode contents hf hm
    unfold uploadBagCurrent
    rw [hf]
    have hq : ∀ e : uploadEnv, (getRecordStartTime e = .error .emptyBag ↔
        e.queryResult = .noRows) := by
      intro e
      unfold getRecordStartTime
      rcases hr : e.queryResult <;> simp
    rcases hm with rfl | rfl | rfl <;>
      (unfold applyCompression
       simp only []
       rcases hr : env.queryResult with _ | ts <;>
         simp [getRecordStartTime, hr] <;>
         rcases hu : env.urlResponse _ with _ | u <;> simp [hu] <;>
         rcases hp : env.putResponse with _ | _ <;> simp [hp])
  · intro r
    rcases r with e | u
    · rcases e <;> simp [workerRemovesFiles]
    · simp [workerRemovesFiles]

/-- A concrete environment whose bag file opens but whose `messages` table
is empty. -/
def uploadEnvC7 : uploadEnv :=
  ⟨some [1], .noRows, fun l => l, fun l => l, fun _ => "t", fun _ => .ok "u", .ok ()⟩

/-- Claim C7 (witness): the theorem at a concrete environment whose
`messages` table is empty — the upload fails with the empty-bag error and
the worker removes the files — and at a concrete HTTP failure — the files
are kept. -/
theorem claimC7_witness :
    (uploadEnvC7.fileContents = some [1] ∧
      ((uploadBagCurrent uploadEnvC7 "none").1 = .error .emptyBag ↔
        uploadEnvC7.queryResult = .noRows)) ∧
    (workerRemovesFiles (.error .emptyBag) = true ↔
      ((.error .emptyBag : Except uploadError Unit) = .ok () ∨
        (.error .emptyBag : Except uploadError Unit) = .error .emptyBag)) ∧
    workerRemovesFiles (.error .putErr) = false :=
  ⟨⟨rfl, claimC7_theorem.1 uploadEnvC7 "none" [1] rfl (Or.inl rfl)⟩,
    claimC7_theorem.2 (.error .emptyBag), by decide⟩

/-! ## The pending-configuration channel (`config.go`)

`newConfigWatcher` allocates `w.nextConfig = make(chan *updatableConfig, 1)`
and sends the initial configuration into it; `onUpdate` sends each accepted
configuration with a plain `w.nextConfig <- config` after cancelling the
current recorder; the main loop receives from it.  A capacity-1 channel is
a single slot, embedded as `Option updatableConfig`. -/

/-- The buffer capacity requested in `make(chan *updatableConfig, 1)`. -/
def nextConfigCapacity : Nat := 1

/-- A plain Go send `ch <- v` on the capacity-1 channel: it completes only
when the slot is free, placing `v`; with the slot occupied the sender
blocks (`none`: no post-state until a receive happens).  Both writers — the
initial send in `newConfigWatcher` and the send in `onUpdate` — are this
send. -/
def chanSendBlocking (slot : Option updatableConfig) (v : updatableConfig) :
    Option (Option updatableConfig) :=
  match slot with
  | none => some (some v)
  | some _ => none

/-- The receive in the watcher's main loop (`case currentConfig = <-w.nextConfig`). -/
def chanRecv (slot : Option updatableConfig) : Option (updatableConfig × Option updatableConfig) :=
  match slot with
  | some v => some (v, none)
  | none => none

/-- Modelled from the spec (§4.4): the claimed replacing write — "if the
slot is occupied, drain it then place the new value" — which never blocks
and always leaves the slot holding the new value. -/
def replaceSendModel (_slot : Option updatableConfig) (v : updatableConfig) :
    Option (Option updatableConfig) :=
  some (some v)

def cfgDefault : updatableConfig :=
  ⟨⟨[], false⟩, defaultSizeThreshold, [], defaultMaxUploadCount, defaultCompressionMode⟩

def cfgOther : updatableConfig :=
  ⟨⟨[], true⟩, defaultSizeThreshold, [], 7, defaultCompressionMode⟩

/-- Claim C6 (counterexample): with the slot occupied, the writer's send in
`onUpdate` blocks — there is no completed-send post-state — whereas the
claimed replace semantics predicts a completed send leaving the latest
value in the slot. -/
theorem claimC6_counterexample :
    chanSendBlocking (some cfgDefault) cfgOther = none ∧
    replaceSendModel (some cfgDefault) cfgOther = some (some cfgOther) ∧
    chanSendBlocking (some cfgDefault) cfgOther ≠
      replaceSendModel (some cfgDefault) cfgOther := by
  exact ⟨rfl, rfl, by decide⟩

/-- Claim C6 (amended theorem): the pending-config channel has capacity 1,
but its writers perform a plain blocking send, not a drain-then-replace: a
send completes exactly when the slot is empty (and then the slot holds the
sent value); on an occupied slot the writer blocks until the main loop's
receive drains it, so a burst of two configurations leaves the first — not
the latest — in the slot while the second sender waits. -/
theorem claimC6_theorem :
    nextConfigCapacity = 1 ∧
    (∀ (slot : Option updatableConfig) (v : updatableConfig),
      (chanSendBlocking slot v = some (some v) ↔ slot = none) ∧
      (chanSendBlocking slot v = none ↔ slot ≠ none)) ∧
    (∀ c1 c2 : updatableConfig,
      chanSendBlocking none c1 = some (some c1) ∧
      chanSendBlocking (some c1) c2 = none ∧
      chanRecv (some c1) = some (c1, none)) := by
  refine ⟨rfl, ?_, ?_⟩
  · intro slot v
    rcases slot with _ | c <;> simp [chanSendBlocking]
  · intro c1 c2
    exact ⟨rfl, rfl, rfl⟩

/-! ## The worker-count semaphore (`uploadmanager.go`)

`newUploadManager` allocates `semaphore.NewWeighted(int64(workerCount))`;
`SetWorkerCount` replaces the field with a fresh semaphore of the new
capacity; `StartWorker` calls `TryAcquire(1)` (never blocks — fails when
the semaphore is full) under the manager's mutex before popping a bag, and
each loop iteration that obtained a bag defers `Release(1)` on the
semaphore it acquired from.  The mutex serialises the transitions, so the
subsystem is a sequential transition system over the following state. -/

structure semSystem where
  /-- capacity of the current semaphore (the current `max_upload_count`). -/
  cap : Nat
  /-- permits currently acquired from the current semaphore. -/
  cur : Nat
  /-- uploads in flight holding a current-semaphore permit. -/
  curUploads : Nat
  /-- uploads in flight that acquired from a since-replaced semaphore
  (they keep running and will release to the discarded semaphore). -/
  oldUploads : Nat
deriving DecidableEq, Repr

inductive semEvent where
  /-- a worker iteration: `TryAcquire(1)` succeeds, `nextBag` yields a bag,
  the upload starts. -/
  | acquireUpload
  /-- `TryAcquire(1)` succeeds but the queue is empty: the worker returns
  (in this variant without registering a release, so the permit stays
  acquired). -/
  | acquireNoBag
  /-- an upload holding a current-semaphore permit finishes and its
  deferred `Release(1)` runs. -/
  | finishCurrent
  /-- an upload from a replaced semaphore finishes (it releases to the
  discarded semaphore, which gates nothing). -/
  | finishOld
  /-- `SetWorkerCount(n)`: the semaphore is replaced by a fresh one of
  capacity `n`; in-flight uploads continue unaffected. -/
  | setWorkerCount (n : Nat)

/-- One transition; `none` when the event is not enabled
(`TryAcquire` failed, or nothing to finish). -/
def semStep (s : semSystem) : semEvent → Option semSystem
  | .acquireUpload =>
    if s.cur + 1 ≤ s.cap then some ⟨s.cap, s.cur + 1, s.curUploads + 1, s.oldUploads⟩
    else none
  | .acquireNoBag =>
    if s.cur + 1 ≤ s.cap then some ⟨s.cap, s.cur + 1, s.curUploads, s.oldUploads⟩
    else none
  | .finishCurrent =>
    if 1 ≤ s.curUploads then some ⟨s.cap, s.cur - 1, s.curUploads - 1, s.oldUploads⟩
    else none
  | .finishOld =>
    if 1 ≤ s.oldUploads then some ⟨s.cap, s.cur, s.curUploads, s.oldUploads - 1⟩
    else none
  | .setWorkerCount n => some ⟨n, 0, 0, s.oldUploads + s.curUploads⟩

/-- `newUploadManager(workerCount, ...)`. -/
def semInit (workerCount : Nat) : semSystem := ⟨workerCount, 0, 0, 0⟩

def runSem (s : semSystem) : List semEvent → Option semSystem
  | [] => some s
  | e :: es =>
    match semStep s e with
    | none => none
    | some s2 => runSem s2 es

/-- The number of uploads executing concurrently. -/
def inFlight (s : semSystem) : Nat := s.curUploads + s.oldUploads

/-- Claim C8 (counterexample): start with `max_upload_count = 2`, let two
uploads start, then `SetWorkerCount(1)` replaces the semaphore and a third
upload acquires the fresh permit: three uploads run concurrently while the
current `max_upload_count` is 1 — the claimed instant-wise bound fails
across a semaphore replacement. -/
theorem claimC8_counterexample :
    runSem (semInit 2) [.acquireUpload, .acquireUpload, .setWorkerCount 1, .acquireUpload] =
      some ⟨1, 1, 1, 2⟩ ∧
    inFlight ⟨1, 1, 1, 2⟩ = 3 ∧ ¬ inFlight ⟨1, 1, 1, 2⟩ ≤ (⟨1, 1, 1, 2⟩ : semSystem).cap := by
  exact ⟨rfl, rfl, by decide⟩

theorem semStep_inv {s s1 : semSystem} {e : semEvent}
    (h1 : s.curUploads ≤ s.cur) (h2 : s.cur ≤ s.cap) (h : semStep s e = some s1) :
    s1.curUploads ≤ s1.cur ∧ s1.cur ≤ s1.cap := by
  cases e <;> simp only [semStep] at h
  · split at h
    · cases h; exact ⟨by dsimp; omega, by dsimp; omega⟩
    · exact Option.noConfusion h
  · split at h
    · cases h; exact ⟨by dsimp; omega, by dsimp; omega⟩
    · exact Option.noConfusion h
  · split at h
    · cases h; exact ⟨by dsimp; omega, by dsimp; omega⟩
    · exact Option.noConfusion h
  · split at h
    · cases h; exact ⟨by dsimp; omega, by dsimp; omega⟩
    · exact Option.noConfusion h
  · cases h; exact ⟨by dsimp; omega, by dsimp; omega⟩

theorem runSem_cons_none {s : semSystem} {e : semEvent} {es : List semEvent}
    (h : semStep s e = none) : runSem s (e :: es) = none := by
  rw [runSem, h]

theorem runSem_cons_some {s s1 : semSystem} {e : semEvent} {es : List semEvent}
    (h : semStep s e = some s1) : runSem s (e :: es) = runSem s1 es := by
  rw [runSem, h]

theorem runSem_inv (events : List semEvent) :
    ∀ s s2 : semSystem, s.curUploads ≤ s.cur → s.cur ≤ s.cap →
      runSem s events = some s2 → s2.curUploads ≤ s2.cur ∧ s2.cur ≤ s2.cap := by
  induction events with
  | nil =>
    intro s s2 h1 h2 hr
    unfold runSem at hr
    cases hr
    exact ⟨h1, h2⟩
  | cons e es ih =>
    intro s s2 h1 h2 hr
    rcases hstep : semStep s e with _ | s1
    · rw [runSem_cons_none hstep] at hr
      exact Option.noConfusion hr
    · rw [runSem_cons_some hstep] at hr
      exact ih s1 s2 (semStep_inv h1 h2 hstep).1 (semStep_inv h1 h2 hstep).2 hr

/-- Claim C8 (amended theorem): in every reachable state of the semaphore
subsystem, the number of uploads admitted under the **current** semaphore
is at most the current `max_upload_count`; uploads admitted before a
`SetWorkerCount` replacement keep running against their old (discarded)
semaphore, so the total in-flight count can exceed the new bound until
they drain. -/
theorem claimC8_theorem (n : Nat) (events : List semEvent) (s : semSystem)
    (h : runSem (semInit n) events = some s) :
    s.curUploads ≤ s.cap := by
  have := runSem_inv events (semInit n) s (by simp [semInit]) (by simp [semInit]) h
  omega

/-- Claim C8 (witness): after the counterexample trace the current-semaphore
uploads (one) respect the current bound (one), as the amended theorem
states. -/
theorem claimC8_witness :
    runSem (semInit 2) [.acquireUpload, .acquireUpload, .setWorkerCount 1, .acquireUpload] =
      some ⟨1, 1, 1, 2⟩ ∧
    (⟨1, 1, 1, 2⟩ : semSystem).curUploads ≤ (⟨1, 1, 1, 2⟩ : semSystem).cap :=
  ⟨rfl, claimC8_theorem 2 [.acquireUpload, .acquireUpload, .setWorkerCount 1, .acquireUpload]
    ⟨1, 1, 1, 2⟩ rfl⟩

/-! ## Loading the existing backlog (`LoadExistingBags`)

The current `uploadManager.LoadExistingBags` implementation — the
recursive-walk one — is not in `src/`: only its callers (`main.go`), the
`uploadManagerInterface` declaration, its tests and the
`validBagExtensions = []string{".gz", ".xz"}` table it consults survive
there.  Per the repository evidence and spec §4.2 it walks `dir`
recursively, admits every path whose path relative to `dir` matches
`^/.+\.db3(\.gz|\.xz)?$`, constructs for each a bag with the number parsed
from the file name and `isNew = false`, bulk-inserts them and heapifies
with `heap.Init`.  The definitions below marked "Modelled from the spec"
embed that description; everything they call (`bagNumberMatch`,
`goFilepathBase`, `heapInitGo`) is embedded from source. -/

def extDb3 : List Char := ['.', 'd', 'b', '3']

def extDb3Gz : List Char := ['.', 'd', 'b', '3', '.', 'g', 'z']

def extDb3Xz : List Char := ['.', 'd', 'b', '3', '.', 'x', 'z']

/-- `rest` ends in the literal suffix `ext`, the part before `ext` is
nonempty, and that part contains no newline (Go's `.` does not match
`'\n'`). -/
def bagRelSuffixCheck (rest ext : List Char) : Bool :=
  decide (ext.length < rest.length) &&
    (rest.drop (rest.length - ext.length) == ext) &&
    !(rest.take (rest.length - ext.length)).contains '\n'

/-- Go's `regexp.MatchString` for the anchored pattern
`^/.+\.db3(\.gz|\.xz)?$`: the string starts with `'/'`, and the remainder
ends in one of the three extensions with a nonempty newline-free stem
before it. -/
def relBagPathMatch (rel : String) : Bool :=
  (rel.data.head? == some '/') &&
    (bagRelSuffixCheck rel.data.tail extDb3 ||
      bagRelSuffixCheck rel.data.tail extDb3Gz ||
      bagRelSuffixCheck rel.data.tail extDb3Xz)

/-- Strip a trailing compression extension from `validBagExtensions`
(`".gz"`, `".xz"`), as the loader does before parsing the segment number
out of the base name. -/
def stripCompressionExt (s : String) : String :=
  if (s.data.length ≥ 3 ∧ s.data.drop (s.data.length - 3) = ['.', 'g', 'z']) ∨
      (s.data.length ≥ 3 ∧ s.data.drop (s.data.length - 3) = ['.', 'x', 'z']) then
    String.mk (s.data.take (s.data.length - 3))
  else s

/-- Modelled from the spec: "number=from-filename" — the segment number
parsed from the compression-stripped base name by the recorder's filename
convention (`bagNumberMatch`), 0 when the name carries no
`_<digits>.db3` suffix. -/
def specBagNumber (p : String) : Int :=
  match bagNumberMatch (goFilepathBase (stripCompressionExt p)) with
  | some (_, ds) => (digitsVal ds.data : Int)
  | none => 0

/-- Modelled from the spec: `BagMetadata(path, number=from-filename,
is_new=false)` for an admitted backlog path. -/
def mkBacklogBag (p : String) : bagMetadata :=
  ⟨p, specBagNumber p, false⟩

/-- Modelled from the spec: `load_existing(dir)` over the list `rels` of
relative paths produced by the recursive walk — admit the matching paths,
bulk-insert the backlog bags into the queue and heapify with
`heap.Init`. -/
def loadExistingBagsModel (queue : List bagMetadata) (rels : List String) :
    List bagMetadata :=
  heapInitGo bagLess (queue ++ (rels.filter relBagPathMatch).map mkBacklogBag)

theorem string_data_inj {a b : String} (h : a.data = b.data) : a = b := by
  cases a; cases b; simp_all

theorem string_data_append (a b : String) : (a ++ b).data = a.data ++ b.data := by
  cases a; cases b; rfl

theorem bagRelSuffixCheck_iff (rest ext : List Char) :
    bagRelSuffixCheck rest ext = true ↔
      ∃ core : List Char,
        rest = core ++ ext ∧ core ≠ [] ∧ core.contains '\n' = false := by
  unfold bagRelSuffixCheck
  simp only [Bool.and_eq_true, decide_eq_true_eq, beq_iff_eq, Bool.not_eq_true']
  constructor
  · rintro ⟨⟨hlen, hdrop⟩, hnl⟩
    refine ⟨rest.take (rest.length - ext.length), ?_, ?_, hnl⟩
    · conv_lhs => rw [← List.take_append_drop (rest.length - ext.length) rest]
      rw [hdrop]
    · have hlt : (rest.take (rest.length - ext.length)).length =
          rest.length - ext.length := by
        rw [List.length_take]; omega
      intro hc
      rw [hc] at hlt
      simp at hlt
      omega
  · rintro ⟨core, rfl, hne, hnl⟩
    have hlc : 0 < core.length := List.length_pos.mpr hne
    have hlen : (core ++ ext).length - ext.length = core.length := by
      rw [List.length_append]; omega
    refine ⟨⟨?_, ?_⟩, ?_⟩
    · rw [List.length_append]; omega
    · rw [hlen]
      exact List.drop_left core ext
    · rw [hlen, List.take_left]
      exact hnl

theorem relBagPathMatch_iff (rel : String) :
    relBagPathMatch rel = true ↔
      ∃ mid ext : String,
        rel = "/" ++ mid ++ ext ∧
        (ext = ".db3" ∨ ext = ".db3.gz" ∨ ext = ".db3.xz") ∧
        mid ≠ "" ∧ mid.data.contains '\n' = false := by
  unfold relBagPathMatch
  constructor
  · intro h
    simp only [Bool.and_eq_true, Bool.or_eq_true, beq_iff_eq] at h
    obtain ⟨hhead, hrest⟩ := h
    rcases hd : rel.data with _ | ⟨c, rest⟩
    · rw [hd] at hhead; simp at hhead
    · rw [hd] at hhead
      simp at hhead
      rw [hd] at hrest
      simp only [List.tail_cons] at hrest
      have hext : ∃ extS : String, (extS = ".db3" ∨ extS = ".db3.gz" ∨ extS = ".db3.xz") ∧
          ∃ core : List Char, rest = core ++ extS.data ∧ core ≠ [] ∧
            core.contains '\n' = false := by
        rcases hrest with (h1 | h2) | h3
        · exact ⟨".db3", Or.inl rfl, (bagRelSuffixCheck_iff rest extDb3).mp h1⟩
        · exact ⟨".db3.gz", Or.inr (Or.inl rfl), (bagRelSuffixCheck_iff rest extDb3Gz).mp h2⟩
        · exact ⟨".db3.xz", Or.inr (Or.inr rfl), (bagRelSuffixCheck_iff rest extDb3Xz).mp h3⟩
      obtain ⟨extS, hwhich, core, hsplit, hne, hnl⟩ := hext
      refine ⟨String.mk core, extS, ?_, hwhich, ?_, hnl⟩
      · apply string_data_inj
        rw [string_data_append, string_data_append, hd, hhead, hsplit]
        rfl
      · intro hc
        exact hne (by simpa using congrArg String.data hc)
  · rintro ⟨mid, ext, rfl, hwhich, hne, hnl⟩
    have hd : ("/" ++ mid ++ ext).data = '/' :: (mid.data ++ ext.data) := by
      rw [string_data_append, string_data_append]
      rfl
    have hmidne : mid.data ≠ [] := by
      intro hc
      exact hne (string_data_inj hc)
    simp only [hd, List.head?_cons, List.tail_cons, Bool.and_eq_true, Bool.or_eq_true,
      beq_iff_eq]
    refine ⟨trivial, ?_⟩
    rcases hwhich with rfl | rfl | rfl
    · exact Or.inl (Or.inl ((bagRelSuffixCheck_iff _ extDb3).mpr ⟨mid.data, rfl, hmidne, hnl⟩))
    · exact Or.inl (Or.inr ((bagRelSuffixCheck_iff _ extDb3Gz).mpr ⟨mid.data, rfl, hmidne, hnl⟩))
    · exact Or.inr ((bagRelSuffixCheck_iff _ extDb3Xz).mpr ⟨mid.data, rfl, hmidne, hnl⟩)

theorem heapInitAux_perm_bag (n i : Nat) :
    ∀ l : List bagMetadata, n ≤ l.length →
      List.Perm (heapInitAux bagLess n i l) l := by
  induction i with
  | zero =>
    intro l _
    rw [heapInitAux]
  | succ i ih =>
    intro l hn
    rw [heapInitAux]
    exact (ih _ (by rw [heapDown_length]; exact hn)).trans (heapDown_perm l i n hn)

theorem heapInitGo_perm_bag (l : List bagMetadata) :
    List.Perm (heapInitGo bagLess l) l := by
  unfold heapInitGo
  exact heapInitAux_perm_bag l.length (l.length / 2) l le_rfl

/-- Claim C4 (theorem): over the modelled recursive walk, (1) a relative
path is admitted exactly when it decomposes as `"/" ++ stem ++ ext` with
`ext` one of `.db3`, `.db3.gz`, `.db3.xz` and a nonempty newline-free stem
— in particular every `.db3`/`.db3.gz`/`.db3.xz` file at any depth is
admitted; (2) the loaded queue is a permutation of the previous queue plus
one backlog bag per admitted path (bulk-insert then `heap.Init`, which
only reorders); (3) every bag loaded from a walk carries `isNew = false`
and the path of an admitted file. -/
theorem claimC4_theorem :
    (∀ rel : String, relBagPathMatch rel = true ↔
      ∃ mid ext : String,
        rel = "/" ++ mid ++ ext ∧
        (ext = ".db3" ∨ ext = ".db3.gz" ∨ ext = ".db3.xz") ∧
        mid ≠ "" ∧ mid.data.contains '\n' = false) ∧
    (∀ (queue : List bagMetadata) (rels : List String),
      List.Perm (loadExistingBagsModel queue rels)
        (queue ++ (rels.filter relBagPathMatch).map mkBacklogBag)) ∧
    (∀ (rels : List String) (b : bagMetadata),
      b ∈ loadExistingBagsModel [] rels →
      b.isNew = false ∧ b.path ∈ rels ∧ relBagPathMatch b.path = true) := by
  refine ⟨relBagPathMatch_iff, ?_, ?_⟩
  · intro queue rels
    exact heapInitGo_perm_bag _
  · intro rels b hb
    have hperm := heapInitGo_perm_bag ([] ++ (rels.filter relBagPathMatch).map mkBacklogBag)
    have hb2 : b ∈ (rels.filter relBagPathMatch).map mkBacklogBag := by
      simpa using hperm.mem_iff.mp hb
    obtain ⟨p, hp, hbp⟩ := List.mem_map.mp hb2
    have hpf := List.mem_filter.mp hp
    subst hbp
    exact ⟨rfl, hpf.1, hpf.2⟩

/-- Claim C4 (witness): a compressed bag two levels deep,
`/run1/rec_3.db3.gz`, is admitted by a walk that also sees `/notes.txt`,
and the loaded bag is a backlog (`isNew = false`) entry for that path. -/
theorem claimC4_witness :
    (mkBacklogBag "/run1/rec_3.db3.gz").isNew = false ∧
    (mkBacklogBag "/run1/rec_3.db3.gz").path ∈
      (["/run1/rec_3.db3.gz", "/notes.txt"] : List String) ∧
    relBagPathMatch (mkBacklogBag "/run1/rec_3.db3.gz").path = true := by
  have hf : List.filter relBagPathMatch ["/run1/rec_3.db3.gz", "/notes.txt"] =
      ["/run1/rec_3.db3.gz"] := by rfl
  have hmem : mkBacklogBag "/run1/rec_3.db3.gz" ∈
      loadExistingBagsModel [] ["/run1/rec_3.db3.gz", "/notes.txt"] := by
    refine (claimC4_theorem.2.1 [] ["/run1/rec_3.db3.gz", "/notes.txt"]).mem_iff.mpr ?_
    rw [hf]
    simp
  exact claimC4_theorem.2.2 ["/run1/rec_3.db3.gz", "/notes.txt"] _ hmem
